import Mathlib

/-!
Verification of the chunked dump-file writer and reader of python-icat
(`src/icat/dumpfile.py`, `src/icat/dumpfile_xml.py`) against its
natural-language specification.

The Python code is shallowly embedded: Python dicts become association
lists, entity objects become inductive values carrying the schema data the
code inspects (`BeanName`, `Constraint`, `InstAttr`, `InstRel`, `InstMRel`,
`AttrAlias`), generators become functions returning the list of yielded
values together with the final mutable state, and exceptions become
`Except`.  Functions of the repository that live outside `src/`
(`icat/client.py`, `icat/entity.py`) are modelled from the spec and marked
as such in their doc comments.
-/

/-- Python dict read `d.get(k)` on an association list. -/
def dlookup [DecidableEq α] : List (α × β) → α → Option β
  | [], _ => none
  | (k, v) :: rest, a => if k = a then some v else dlookup rest a

/-- Python dict update `d[k] = v` on an association list: replace the value
if the key is present, append the pair otherwise. -/
def dinsert [DecidableEq α] : List (α × β) → α → β → List (α × β)
  | [], a, v => [(a, v)]
  | (k, w) :: rest, a, v =>
      if k = a then (a, v) :: rest else (k, w) :: dinsert rest a v

theorem dlookup_dinsert_self [DecidableEq α] (m : List (α × β)) (k : α) (v : β) :
    dlookup (dinsert m k v) k = some v := by
  induction m with
  | nil => simp [dinsert, dlookup]
  | cons p rest ih =>
      obtain ⟨k', v'⟩ := p
      by_cases h : k' = k
      · simp [dinsert, h, dlookup]
      · simp [dinsert, h, dlookup, ih]

theorem dlookup_dinsert_ne [DecidableEq α] (m : List (α × β)) {k k' : α} (v : β)
    (h : k' ≠ k) : dlookup (dinsert m k v) k' = dlookup m k' := by
  induction m with
  | nil => simp [dinsert, dlookup, Ne.symm h]
  | cons p rest ih =>
      obtain ⟨k₀, v₀⟩ := p
      by_cases h0 : k₀ = k
      · subst h0
        simp [dinsert, dlookup, Ne.symm h]
      · simp only [dinsert, if_neg h0, dlookup]
        by_cases h1 : k₀ = k'
        · simp [h1]
        · simp [h1, ih]

theorem dlookup_dinsert_isSome [DecidableEq α] (m : List (α × β)) (k a : α) (v : β)
    (h : (dlookup m a).isSome) : (dlookup (dinsert m k v) a).isSome := by
  by_cases hak : a = k
  · subst hak; simp [dlookup_dinsert_self]
  · rwa [dlookup_dinsert_ne m v hak]

/-! ### Decimal rendering of the generated keys

`DumpFileWriter.writeobjs` (src/icat/dumpfile.py line 206) formats the
per-type counter with the Python format string `"%s_%08d"`: the decimal
digits of the counter, left-padded with `'0'` to a minimum width of 8,
appended to the type name and an underscore. -/

/-- Decimal digit characters, as produced by `%d`. -/
def digitChar : Nat → Char
  | 0 => '0'
  | 1 => '1'
  | 2 => '2'
  | 3 => '3'
  | 4 => '4'
  | 5 => '5'
  | 6 => '6'
  | 7 => '7'
  | 8 => '8'
  | 9 => '9'
  | _ => '*'

/-- Little-endian base-10 digits of `n`, with explicit fuel so that the
definition is structurally recursive (and hence evaluates by `decide`). -/
def digitsRev : Nat → Nat → List Nat
  | 0, _ => []
  | fuel + 1, n => if n = 0 then [] else n % 10 :: digitsRev fuel (n / 10)

theorem digitsRev_eq (fuel n : Nat) (h : n ≤ fuel) :
    digitsRev fuel n = Nat.digits 10 n := by
  induction fuel generalizing n with
  | zero =>
      have : n = 0 := Nat.le_zero.mp h
      simp [digitsRev, this]
  | succ f ih =>
      by_cases hn : n = 0
      · simp [digitsRev, hn]
      · rw [digitsRev, if_neg hn,
          Nat.digits_def' (by norm_num : (1:Nat) < 10) (Nat.pos_of_ne_zero hn),
          ih (n / 10)]
        have := Nat.div_lt_self (Nat.pos_of_ne_zero hn) (by norm_num : 1 < 10)
        omega

/-- Decimal digit string of `n`, most significant digit first, as produced
by Python `"%d" % n`. -/
def natDigits (n : Nat) : List Char :=
  if n = 0 then ['0'] else ((digitsRev n n).map digitChar).reverse

/-- Big-endian base-10 digit list of `n` (`[0]` for zero). -/
def bigDigits (n : Nat) : List Nat :=
  if n = 0 then [0] else (Nat.digits 10 n).reverse

theorem natDigits_eq_map (n : Nat) : natDigits n = (bigDigits n).map digitChar := by
  by_cases h : n = 0
  · simp [natDigits, bigDigits, h, digitChar]
  · simp [natDigits, bigDigits, h, digitsRev_eq n n le_rfl, List.map_reverse]

theorem bigDigits_mem_lt (n : Nat) : ∀ d ∈ bigDigits n, d < 10 := by
  intro d hd
  by_cases h : n = 0
  · simp [bigDigits, h] at hd
    omega
  · simp only [bigDigits, if_neg h, List.mem_reverse] at hd
    exact Nat.digits_lt_base (by norm_num) hd

theorem bigDigits_inj {a b : Nat} (h : bigDigits a = bigDigits b) : a = b := by
  by_cases ha : a = 0 <;> by_cases hb : b = 0
  · omega
  · exfalso
    simp only [bigDigits, if_pos ha, if_neg hb] at h
    have h2 : Nat.digits 10 b = [0] := by
      have := congrArg List.reverse h
      simpa using this.symm
    have h3 := Nat.ofDigits_digits 10 b
    rw [h2] at h3
    simp [Nat.ofDigits] at h3
    exact hb h3.symm
  · exfalso
    simp only [bigDigits, if_neg ha, if_pos hb] at h
    have h2 : Nat.digits 10 a = [0] := by
      have := congrArg List.reverse h
      simpa using this
    have h3 := Nat.ofDigits_digits 10 a
    rw [h2] at h3
    simp [Nat.ofDigits] at h3
    exact ha h3.symm
  · simp only [bigDigits, if_neg ha, if_neg hb] at h
    have := List.reverse_injective h
    exact Nat.digits.injective 10 this

theorem digitChar_inj_lt :
    ∀ x < 10, ∀ y < 10, digitChar x = digitChar y → x = y := by decide

theorem map_digitChar_inj : ∀ {l1 l2 : List Nat}, (∀ d ∈ l1, d < 10) →
    (∀ d ∈ l2, d < 10) → l1.map digitChar = l2.map digitChar → l1 = l2 := by
  intro l1
  induction l1 with
  | nil =>
      intro l2 _ _ h
      cases l2 with
      | nil => rfl
      | cons x xs => simp at h
  | cons x xs ih =>
      intro l2 h1 h2 h
      cases l2 with
      | nil => simp at h
      | cons y ys =>
          simp only [List.map_cons, List.cons.injEq] at h
          have hx : x < 10 := h1 x (by simp)
          have hy : y < 10 := h2 y (by simp)
          have hxy := digitChar_inj_lt x hx y hy h.1
          have := ih (fun d hd => h1 d (by simp [hd]))
            (fun d hd => h2 d (by simp [hd])) h.2
          simp [hxy, this]

theorem natDigits_injective : Function.Injective natDigits := by
  intro a b h
  rw [natDigits_eq_map, natDigits_eq_map] at h
  exact bigDigits_inj (map_digitChar_inj (bigDigits_mem_lt a) (bigDigits_mem_lt b) h)

/-- Python `"%08d" % n`: the decimal digits of `n` left-padded with zeros to
a minimum width of 8 characters. -/
def format08 (n : Nat) : String := ⟨List.leftpad 8 '0' (natDigits n)⟩

theorem natDigits_head_ne_zero {n : Nat} (hn : 0 < n) :
    ∃ c l, natDigits n = c :: l ∧ (c == '0') = false := by
  have hne : Nat.digits 10 n ≠ [] :=
    Nat.digits_ne_nil_iff_ne_zero.mpr (Nat.pos_iff_ne_zero.mp hn)
  have hsplit := List.dropLast_append_getLast hne
  have hrev : (Nat.digits 10 n).reverse =
      (Nat.digits 10 n).getLast hne :: (Nat.digits 10 n).dropLast.reverse := by
    conv_lhs => rw [← hsplit]
    simp
  have hlast_ne : (Nat.digits 10 n).getLast hne ≠ 0 :=
    Nat.getLast_digit_ne_zero 10 (Nat.pos_iff_ne_zero.mp hn)
  have hlast_lt : (Nat.digits 10 n).getLast hne < 10 :=
    Nat.digits_lt_base (by norm_num) (List.getLast_mem hne)
  have hchar : ∀ d < 10, d ≠ 0 → (digitChar d == '0') = false := by decide
  refine ⟨digitChar ((Nat.digits 10 n).getLast hne),
    ((Nat.digits 10 n).dropLast.reverse).map digitChar, ?_,
    hchar _ hlast_lt hlast_ne⟩
  rw [natDigits_eq_map]
  simp only [bigDigits, if_neg (Nat.pos_iff_ne_zero.mp hn)]
  rw [hrev]
  simp

theorem dropWhile_zeros (m : Nat) {l : List Char} (c : Char) (l' : List Char)
    (hl : l = c :: l') (hc : (c == '0') = false) :
    (List.replicate m '0' ++ l).dropWhile (fun x => x == '0') = l := by
  induction m with
  | zero => simp [hl, List.dropWhile_cons, hc]
  | succ m ih => simpa [List.replicate_succ, List.dropWhile_cons] using ih

theorem unpad_format08 {n : Nat} (hn : 0 < n) :
    (List.leftpad 8 '0' (natDigits n)).dropWhile (fun x => x == '0') = natDigits n := by
  obtain ⟨c, l, hl, hc⟩ := natDigits_head_ne_zero hn
  rw [List.leftpad]
  exact dropWhile_zeros _ c l hl hc

theorem format08_inj {a b : Nat} (ha : 0 < a) (hb : 0 < b)
    (h : format08 a = format08 b) : a = b := by
  have hd : List.leftpad 8 '0' (natDigits a) = List.leftpad 8 '0' (natDigits b) :=
    congrArg String.data h
  have : natDigits a = natDigits b := by
    rw [← unpad_format08 ha, ← unpad_format08 hb, hd]
  exact natDigits_injective this

/-- The generated key `"%s_%08d" % (t, n)` of
`DumpFileWriter.writeobjs` (src/icat/dumpfile.py line 206). -/
def genkey (t : String) (n : Nat) : String := t ++ "_" ++ format08 n

theorem genkey_inj (t : String) {a b : Nat} (ha : 0 < a) (hb : 0 < b)
    (h : genkey t a = genkey t b) : a = b := by
  have hd := congrArg String.data h
  simp only [genkey, String.data_append, List.append_assoc] at hd
  have h1 := List.append_cancel_left hd
  have h2 := List.append_cancel_left h1
  exact format08_inj ha hb (String.ext h2)

/-! ### The writer: `DumpFileWriter` (src/icat/dumpfile.py lines 118-232)
combined with the chunk buffering of `XMLDumpFileWriter`
(src/icat/dumpfile_xml.py lines 162-205).

An entity object is embedded by the data `writeobjs` inspects: its
`BeanName`, its `id` and its `Constraint` (the tuple of constraint
attribute names). -/

structure WEntity where
  beanName : String
  eid : Nat
  constraint : List String
deriving DecidableEq, Repr

/-- The key index passed to `writeobjs`: maps `(obj.BeanName, obj.id)`
pairs to unique keys (src/icat/dumpfile.py line 207). -/
abbrev KeyIndex := List ((String × Nat) × String)

/-- DumpFileWriter state: `idcounter` is the per-instance dict of per-type counters
(src/icat/dumpfile.py line 124); `data` is the current chunk buffer
(`XMLDumpFileWriter.data`, src/icat/dumpfile_xml.py line 169); `chunks` is
the sequence of data chunks already flushed to the output file; `closed`
records whether the output file has been closed. -/
structure DumpFileWriter where
  idcounter : List (String × Nat)
  data : List (String × WEntity)
  chunks : List (List (String × WEntity))
  closed : Bool
deriving DecidableEq, Repr

/-- A freshly constructed writer (src/icat/dumpfile.py lines 121-124:
`self.idcounter = {}`; the chunk buffer starts empty,
src/icat/dumpfile_xml.py line 169). -/
def initWriter : DumpFileWriter := ⟨[], [], [], false⟩

/-- `XMLDumpFileWriter.writeobj` (src/icat/dumpfile_xml.py lines 195-199):
append the keyed record to the current data chunk. -/
def writeobj (w : DumpFileWriter) (k : String) (obj : WEntity) : DumpFileWriter :=
  { w with data := w.data ++ [(k, obj)] }

/-- `XMLDumpFileWriter.startdata` (src/icat/dumpfile_xml.py lines 185-193):
if the current chunk contains any data, write it to the output file, then
begin a fresh empty chunk. -/
def startdata (w : DumpFileWriter) : DumpFileWriter :=
  if w.data.length > 0 then { w with chunks := w.chunks ++ [w.data], data := [] }
  else { w with data := [] }

/-- The signature of `icat.entity.Entity.getUniqueKey`: derives a key for a
constrained entity, possibly updating the key index cache.
`icat/entity.py` is not part of this repository, so the function is kept
abstract; the claims under verification only concern the other branch. -/
abbrev GetUniqueKey := WEntity → KeyIndex → String × KeyIndex

/-- Loop body of `DumpFileWriter.writeobjs` (src/icat/dumpfile.py lines
195-210): an object whose `Constraint` contains `'id'` gets the generated
key `"%s_%08d" % (t, self.idcounter[t])` after incrementing the per-type
counter (initialised to 0 when the type is first seen), and the mapping
`(obj.BeanName, obj.id) -> key` is recorded in the key index; any other
object is keyed by `obj.getUniqueKey(keyindex=keyindex)`.  The keyed object
is then handed to `writeobj`. -/
def writeobjsStep (guk : GetUniqueKey) : DumpFileWriter × KeyIndex → WEntity → DumpFileWriter × KeyIndex :=
  fun st obj =>
    let w := st.1
    let keyindex := st.2
    if "id" ∈ obj.constraint then
      let t := obj.beanName
      let n := (dlookup w.idcounter t).getD 0 + 1
      let w' := { w with idcounter := dinsert w.idcounter t n }
      let k := genkey t n
      (writeobj w' k obj, dinsert keyindex (obj.beanName, obj.eid) k)
    else
      let kk := guk obj keyindex
      (writeobj w kk.1 obj, kk.2)

/-- `DumpFileWriter.writeobjs` (src/icat/dumpfile.py lines 155-210).
`objs` is the sequence of entity objects in the order the `for` loop visits
them: for a query argument this is the iteration order of
`client.searchChunked(objs, chunksize=chunksize)`, for a list argument the
order after the in-place sort by `icat.entity.Entity.__sortkey__`; both
`client.searchChunked` and `__sortkey__` live outside this repository.
`chunksize` is passed only to `client.searchChunked` as a paging tuning
parameter and has no other effect, so it is unused here. -/
def writeobjs (guk : GetUniqueKey) (objs : List WEntity) (w : DumpFileWriter)
    (keyindex : KeyIndex) (chunksize : Nat) : DumpFileWriter × KeyIndex :=
  objs.foldl (writeobjsStep guk) (w, keyindex)

/-- `DumpFileWriter.writedata` (src/icat/dumpfile.py lines 212-232): create
a fresh key index when none is given, call `startdata` once, then write
each search result list with `writeobjs`. -/
def writedata (guk : GetUniqueKey) (objss : List (List WEntity)) (w : DumpFileWriter)
    (keyindex : Option KeyIndex) (chunksize : Nat) : DumpFileWriter × KeyIndex :=
  let ki := keyindex.getD []
  objss.foldl (fun st o => writeobjs guk o st.1 st.2 chunksize) (startdata w, ki)

/-- `XMLDumpFileWriter.finalize` (src/icat/dumpfile_xml.py lines 201-205):
flush any pending chunk via `startdata`, write the closing tag and close
the output file. -/
def finalize (w : DumpFileWriter) : DumpFileWriter :=
  { startdata w with closed := true }

/-- `DumpFileWriter.__exit__` (src/icat/dumpfile.py lines 130-133): call
`finalize` only when no exception is propagating, then close the output
file on every exit path. -/
def exitWriter (w : DumpFileWriter) (excOccurred : Bool) : DumpFileWriter :=
  let w' := if excOccurred then w else finalize w
  { w' with closed := true }

/-- A call against the writer: either `writeobjs` on some object sequence
or `startdata` (a chunk boundary). -/
inductive WCmd where
  | wobjs (objs : List WEntity)
  | sdata
deriving Repr

def runCmd (guk : GetUniqueKey) : DumpFileWriter × KeyIndex → WCmd → DumpFileWriter × KeyIndex
  | st, .wobjs objs => writeobjs guk objs st.1 st.2 100
  | st, .sdata => (startdata st.1, st.2)

def runCmds (guk : GetUniqueKey) (cmds : List WCmd) (st : DumpFileWriter × KeyIndex) :
    DumpFileWriter × KeyIndex :=
  cmds.foldl (runCmd guk) st

/-- All keyed records handed to `writeobj` so far, in order: the flushed
chunks followed by the current chunk buffer. -/
def allWritten (w : DumpFileWriter) : List (String × WEntity) := w.chunks.flatten ++ w.data

/-- Keys in a write trace assigned to objects of type `t` that took the
generated-key branch (`'id' in obj.Constraint`), in write order. -/
def genKeysL (l : List (String × WEntity)) (t : String) : List String :=
  l.filterMap
    (fun p => if p.2.beanName = t ∧ "id" ∈ p.2.constraint then some p.1 else none)

/-- The keys assigned to written objects of type `t` that took the
generated-key branch, in write order. -/
def genKeys (w : DumpFileWriter) (t : String) : List String :=
  genKeysL (allWritten w) t

/-- Number of objects of type `t` in `objs` that take the generated-key
branch of `writeobjs`. -/
def countGen (t : String) (objs : List WEntity) : Nat :=
  (objs.filter (fun o => decide (o.beanName = t ∧ "id" ∈ o.constraint))).length

def countGenCmds (t : String) : List WCmd → Nat
  | [] => 0
  | .wobjs objs :: rest => countGen t objs + countGenCmds t rest
  | .sdata :: rest => countGenCmds t rest

/-- The per-type counter value currently stored on the writer instance
(`self.idcounter`, reading an absent type as 0). -/
def counterOf (w : DumpFileWriter) (t : String) : Nat := (dlookup w.idcounter t).getD 0

/-- Invariant: for every type, the generated keys written so far form the
gap-free sequence `genkey t 1 … genkey t (counter t)`. -/
def GenInv (w : DumpFileWriter) : Prop :=
  ∀ t, genKeys w t = (List.range (counterOf w t)).map (fun i => genkey t (i + 1))

theorem genKeysL_append (l1 l2 : List (String × WEntity)) (t : String) :
    genKeysL (l1 ++ l2) t = genKeysL l1 t ++ genKeysL l2 t := by
  simp [genKeysL, List.filterMap_append]

theorem allWritten_writeobj (w : DumpFileWriter) (k : String) (obj : WEntity) :
    allWritten (writeobj w k obj) = allWritten w ++ [(k, obj)] := by
  simp [allWritten, writeobj]

theorem allWritten_startdata (w : DumpFileWriter) :
    allWritten (startdata w) = allWritten w := by
  by_cases h : w.data.length > 0
  · simp [allWritten, startdata, h]
  · have hd : w.data = [] := by
      cases hdd : w.data with
      | nil => rfl
      | cons a l => rw [hdd] at h; simp at h
    simp [allWritten, startdata, h, hd]

theorem counterOf_startdata (w : DumpFileWriter) (t : String) :
    counterOf (startdata w) t = counterOf w t := by
  by_cases h : w.data.length > 0 <;> simp [counterOf, startdata, h]

/-- The writer after incrementing the per-type counter for type `t`
(lines 203-205 of src/icat/dumpfile.py). -/
def bumpCounter (w : DumpFileWriter) (t : String) : DumpFileWriter :=
  { w with idcounter := dinsert w.idcounter t ((dlookup w.idcounter t).getD 0 + 1) }

theorem writeobjsStep_fst (guk : GetUniqueKey) (w : DumpFileWriter)
    (ki : KeyIndex) (obj : WEntity) :
    (writeobjsStep guk (w, ki) obj).1 =
      if "id" ∈ obj.constraint then
        writeobj (bumpCounter w obj.beanName)
          (genkey obj.beanName ((dlookup w.idcounter obj.beanName).getD 0 + 1)) obj
      else writeobj w (guk obj ki).1 obj := by
  by_cases hc : "id" ∈ obj.constraint <;> simp [writeobjsStep, bumpCounter, hc]

theorem allWritten_bumpCounter (w : DumpFileWriter) (t : String) :
    allWritten (bumpCounter w t) = allWritten w := rfl

theorem counterOf_bumpCounter_self (w : DumpFileWriter) (t : String) :
    counterOf (bumpCounter w t) t = counterOf w t + 1 := by
  simp [counterOf, bumpCounter, dlookup_dinsert_self]

theorem counterOf_bumpCounter_ne (w : DumpFileWriter) {t t' : String} (h : t' ≠ t) :
    counterOf (bumpCounter w t) t' = counterOf w t' := by
  simp [counterOf, bumpCounter, dlookup_dinsert_ne _ _ h]

theorem counterOf_writeobj (w : DumpFileWriter) (k : String) (obj : WEntity)
    (t : String) : counterOf (writeobj w k obj) t = counterOf w t := rfl

theorem writeobjsStep_genInv (guk : GetUniqueKey) (st : DumpFileWriter × KeyIndex)
    (obj : WEntity) (h : GenInv st.1) : GenInv (writeobjsStep guk st obj).1 := by
  obtain ⟨w, ki⟩ := st
  intro t
  simp only at h
  rw [writeobjsStep_fst]
  by_cases hc : "id" ∈ obj.constraint
  · rw [if_pos hc]
    by_cases ht : obj.beanName = t
    · subst ht
      simp only [genKeys, allWritten_writeobj, genKeysL_append, allWritten_bumpCounter,
        counterOf_writeobj, counterOf_bumpCounter_self]
      have hone : genKeysL [(genkey obj.beanName
          ((dlookup w.idcounter obj.beanName).getD 0 + 1), obj)] obj.beanName
          = [genkey obj.beanName ((dlookup w.idcounter obj.beanName).getD 0 + 1)] := by
        simp [genKeysL, hc]
      have hg := h obj.beanName
      simp only [genKeys] at hg
      rw [hone, List.range_succ, hg]
      simp [counterOf]
    · simp only [genKeys, allWritten_writeobj, genKeysL_append, allWritten_bumpCounter,
        counterOf_writeobj, counterOf_bumpCounter_ne w (fun hh : t = obj.beanName => ht hh.symm)]
      have hne : ¬(obj.beanName = t ∧ "id" ∈ obj.constraint) := fun hh => ht hh.1
      have hone : genKeysL [(genkey obj.beanName
          ((dlookup w.idcounter obj.beanName).getD 0 + 1), obj)] t = [] := by
        simp [genKeysL, hne]
      rw [hone, List.append_nil]
      exact h t
  · rw [if_neg hc]
    simp only [genKeys, allWritten_writeobj, genKeysL_append, counterOf_writeobj]
    have hne : ¬(obj.beanName = t ∧ "id" ∈ obj.constraint) := fun hh => hc hh.2
    have hone : genKeysL [((guk obj ki).1, obj)] t = [] := by
      simp [genKeysL, hne]
    rw [hone, List.append_nil]
    exact h t

theorem counterOf_writeobjsStep (guk : GetUniqueKey) (st : DumpFileWriter × KeyIndex)
    (obj : WEntity) (t : String) :
    counterOf (writeobjsStep guk st obj).1 t =
      counterOf st.1 t + (if obj.beanName = t ∧ "id" ∈ obj.constraint then 1 else 0) := by
  obtain ⟨w, ki⟩ := st
  rw [writeobjsStep_fst]
  by_cases hc : "id" ∈ obj.constraint
  · rw [if_pos hc]
    by_cases ht : obj.beanName = t
    · subst ht
      simp [counterOf_writeobj, counterOf_bumpCounter_self, hc]
    · have hne : ¬(obj.beanName = t ∧ "id" ∈ obj.constraint) := fun hh => ht hh.1
      simp [counterOf_writeobj,
        counterOf_bumpCounter_ne w (fun hh : t = obj.beanName => ht hh.symm), hne]
  · have hne : ¬(obj.beanName = t ∧ "id" ∈ obj.constraint) := fun hh => hc hh.2
    simp [if_neg hc, counterOf_writeobj, hne]

theorem countGen_cons (t : String) (o : WEntity) (objs : List WEntity) :
    countGen t (o :: objs) =
      (if o.beanName = t ∧ "id" ∈ o.constraint then 1 else 0) + countGen t objs := by
  by_cases h : o.beanName = t ∧ "id" ∈ o.constraint <;> simp [countGen, h] <;> omega

theorem writeobjs_foldl_inv (guk : GetUniqueKey) (objs : List WEntity) :
    ∀ (st : DumpFileWriter × KeyIndex), GenInv st.1 →
      GenInv (objs.foldl (writeobjsStep guk) st).1 ∧
      ∀ t, counterOf (objs.foldl (writeobjsStep guk) st).1 t =
        counterOf st.1 t + countGen t objs := by
  induction objs with
  | nil => intro st h; exact ⟨h, fun t => by simp [countGen]⟩
  | cons o rest ih =>
      intro st h
      have hstep := writeobjsStep_genInv guk st o h
      obtain ⟨h1, h2⟩ := ih (writeobjsStep guk st o) hstep
      refine ⟨by simpa using h1, fun t => ?_⟩
      have := h2 t
      simp only [List.foldl_cons] at *
      rw [this, counterOf_writeobjsStep, countGen_cons]
      omega

theorem runCmds_inv (guk : GetUniqueKey) (cmds : List WCmd) :
    ∀ (st : DumpFileWriter × KeyIndex), GenInv st.1 →
      GenInv (runCmds guk cmds st).1 ∧
      ∀ t, counterOf (runCmds guk cmds st).1 t =
        counterOf st.1 t + countGenCmds t cmds := by
  induction cmds with
  | nil => intro st h; exact ⟨h, fun t => by simp [runCmds, countGenCmds]⟩
  | cons c rest ih =>
      intro st h
      cases c with
      | wobjs objs =>
          have hw := writeobjs_foldl_inv guk objs st h
          obtain ⟨h1, h2⟩ := ih (runCmd guk st (.wobjs objs)) (by
            simpa [runCmd, writeobjs] using hw.1)
          refine ⟨by simpa [runCmds, List.foldl_cons] using h1, fun t => ?_⟩
          have h3 := h2 t
          have h4 := hw.2 t
          simp only [runCmds, List.foldl_cons] at h3 ⊢
          rw [h3]
          simp only [runCmd, writeobjs] at *
          rw [h4]
          simp [countGenCmds]
          omega
      | sdata =>
          have hsd : GenInv (runCmd guk st .sdata).1 := by
            intro t
            simp only [runCmd, genKeys, allWritten_startdata, counterOf_startdata]
            exact h t
          obtain ⟨h1, h2⟩ := ih (runCmd guk st .sdata) hsd
          refine ⟨by simpa [runCmds, List.foldl_cons] using h1, fun t => ?_⟩
          have h3 := h2 t
          simp only [runCmds, List.foldl_cons] at h3 ⊢
          rw [h3]
          simp [runCmd, counterOf_startdata, countGenCmds]

theorem genInv_initWriter : GenInv initWriter := by
  intro t
  simp [genKeys, genKeysL, allWritten, initWriter, counterOf, dlookup]

theorem genkey_succ_injective (t : String) :
    Function.Injective (fun i : Nat => genkey t (i + 1)) := by
  intro a b hab
  have := genkey_inj t (Nat.succ_pos a) (Nat.succ_pos b) hab
  omega

/-- C1: over any sequence of `writeobjs` calls (with chunk boundaries
`startdata` interleaved arbitrarily) on one writer instance, every object
whose `Constraint` contains `'id'` receives the key
`"<Type>_<%08d counter>"` from a per-type counter starting at 1 and
incremented by exactly 1 per such object of that type, never reset at chunk
boundaries: the written generated keys of each type are exactly
`genkey t 1 … genkey t n` for `n` the total number of such objects of that
type, hence unique, strictly increasing and gap-free; moreover each step
records `(obj.BeanName, obj.id) -> key` in the key index. -/
theorem writeobjs_generated_keys (guk : GetUniqueKey) (cmds : List WCmd) :
    (∀ t, genKeys (runCmds guk cmds (initWriter, [])).1 t =
        (List.range (countGenCmds t cmds)).map (fun i => genkey t (i + 1)) ∧
      (genKeys (runCmds guk cmds (initWriter, [])).1 t).Nodup) ∧
    (∀ (w : DumpFileWriter) (ki : KeyIndex) (obj : WEntity),
      "id" ∈ obj.constraint →
        (writeobjsStep guk (w, ki) obj).2 =
          dinsert ki (obj.beanName, obj.eid)
            (genkey obj.beanName (counterOf w obj.beanName + 1)) ∧
        dlookup (writeobjsStep guk (w, ki) obj).2 (obj.beanName, obj.eid) =
          some (genkey obj.beanName (counterOf w obj.beanName + 1))) := by
  constructor
  · intro t
    obtain ⟨h1, h2⟩ := runCmds_inv guk cmds (initWriter, []) genInv_initWriter
    have hcnt := h2 t
    have hzero : counterOf initWriter t = 0 := by simp [counterOf, initWriter, dlookup]
    rw [hzero] at hcnt
    have hg := h1 t
    rw [hg, hcnt]
    constructor
    · simp
    · exact List.Nodup.map (genkey_succ_injective t) (List.nodup_range _)
  · intro w ki obj hc
    have hki : (writeobjsStep guk (w, ki) obj).2 =
        dinsert ki (obj.beanName, obj.eid)
          (genkey obj.beanName (counterOf w obj.beanName + 1)) := by
      simp [writeobjsStep, hc, counterOf]
    exact ⟨hki, by rw [hki, dlookup_dinsert_self]⟩

/-- Witness for C1 at a concrete input: one `writeobjs` call on two `Rule`
objects and one `Grouping`-keyed object, with a chunk boundary in between,
followed by another `Rule`. -/
theorem writeobjs_generated_keys_witness :
    genKeys (runCmds (fun _ ki => ("gkey", ki))
        [WCmd.wobjs [⟨"Rule", 5, ["grouping", "what", "id"]⟩,
                     ⟨"Rule", 9, ["grouping", "what", "id"]⟩],
         WCmd.sdata,
         WCmd.wobjs [⟨"Rule", 11, ["grouping", "what", "id"]⟩]]
        (initWriter, [])).1 "Rule" =
      ["Rule_00000001", "Rule_00000002", "Rule_00000003"] ∧
    (writeobjsStep (fun _ ki => ("gkey", ki)) (initWriter, [])
        ⟨"Rule", 5, ["grouping", "what", "id"]⟩).2 =
      [(("Rule", 5), "Rule_00000001")] := by
  have h := writeobjs_generated_keys (fun _ ki => ("gkey", ki))
    [WCmd.wobjs [⟨"Rule", 5, ["grouping", "what", "id"]⟩,
                 ⟨"Rule", 9, ["grouping", "what", "id"]⟩],
     WCmd.sdata,
     WCmd.wobjs [⟨"Rule", 11, ["grouping", "what", "id"]⟩]]
  constructor
  · have h1 := (h.1 "Rule").1
    rw [h1]
    decide
  · have h2 := (h.2 initWriter [] ⟨"Rule", 5, ["grouping", "what", "id"]⟩ (by decide)).1
    rw [h2]
    decide

/-! ### Claim C2: the 250-Facility scenario -/

/-- 250 `Facility` objects; the entity type has no real uniqueness
constraint, so `Constraint` is the id fallback `('id',)`. -/
def facilityObjs : List WEntity :=
  (List.range 250).map (fun i => ⟨"Facility", i + 1, ["id"]⟩)

/-- One complete write of the 250 facilities through one `writedata` call
with `chunksize=100`, then a normal context-manager exit (which finalizes
and flushes the pending chunk). -/
def facilityRun : DumpFileWriter :=
  exitWriter (writedata (fun _ ki => ("gkey", ki)) [facilityObjs]
    initWriter none 100).1 false

set_option maxRecDepth 40000 in
/-- C2, counterexample: writing 250 unconstrained `Facility` objects with
chunk size 100 does not produce 3 chunks of 100, 100 and 50 entities:
`chunksize` is only a paging parameter of `client.searchChunked`, while
data chunks correspond to `startdata` boundaries, so a single `writedata`
call puts all 250 objects into one chunk. -/
theorem facility_chunks_counterexample :
    facilityRun.chunks.map List.length ≠ [100, 100, 50] := by decide

set_option maxRecDepth 40000 in
/-- C2, amended: writing 250 unconstrained `Facility` objects through one
`writedata` call with chunk size 100 produces exactly one data chunk
holding all 250 entities, with generated keys `Facility_00000001` through
`Facility_00000250`, strictly increasing with no gaps. -/
theorem facility_chunks_amended :
    facilityRun.chunks.map List.length = [250] ∧
    genKeys facilityRun "Facility" =
      (List.range 250).map (fun i => genkey "Facility" (i + 1)) ∧
    genkey "Facility" 1 = "Facility_00000001" ∧
    genkey "Facility" 250 = "Facility_00000250" := by
  refine ⟨by decide, by decide, by decide, by decide⟩

/-! ### Claim C4: exit semantics of the writer context manager -/

theorem chunks_writeobjsStep (guk : GetUniqueKey) (st : DumpFileWriter × KeyIndex)
    (obj : WEntity) : (writeobjsStep guk st obj).1.chunks = st.1.chunks := by
  obtain ⟨w, ki⟩ := st
  rw [writeobjsStep_fst]
  by_cases hc : "id" ∈ obj.constraint <;> simp [hc, writeobj, bumpCounter]

theorem chunks_writeobjs (guk : GetUniqueKey) (objs : List WEntity) :
    ∀ (st : DumpFileWriter × KeyIndex),
      (objs.foldl (writeobjsStep guk) st).1.chunks = st.1.chunks := by
  induction objs with
  | nil => intro st; rfl
  | cons o rest ih =>
      intro st
      simp only [List.foldl_cons]
      rw [ih (writeobjsStep guk st o), chunks_writeobjsStep]

theorem chunks_startdata (w : DumpFileWriter) :
    ∃ l, (startdata w).chunks = w.chunks ++ l := by
  by_cases h : w.data.length > 0
  · exact ⟨[w.data], by simp [startdata, h]⟩
  · exact ⟨[], by simp [startdata, h]⟩

/-- C4: if an exception propagates out of the `with` block of a
`DumpFileWriter`, `__exit__` skips `finalize`, so the in-progress chunk
buffer is never written to the output and the flushed chunks are exactly
those present before the exit; on every exit path, normal or exceptional,
the output file ends up closed; and all chunk writes are append-only: no
operation of the writer ever changes or removes an already flushed chunk. -/
theorem writer_exit_semantics (w : DumpFileWriter) :
    (exitWriter w true).chunks = w.chunks ∧
    (exitWriter w true).closed = true ∧
    (exitWriter w false).closed = true ∧
    (∃ l, (exitWriter w false).chunks = w.chunks ++ l) ∧
    (∀ (guk : GetUniqueKey) (objs : List WEntity) (ki : KeyIndex) (cs : Nat),
      (writeobjs guk objs w ki cs).1.chunks = w.chunks) ∧
    (∃ l, (startdata w).chunks = w.chunks ++ l) ∧
    (∃ l, (finalize w).chunks = w.chunks ++ l) := by
  refine ⟨rfl, rfl, rfl, ?_, ?_, chunks_startdata w, ?_⟩
  · obtain ⟨l, hl⟩ := chunks_startdata w
    exact ⟨l, by simp [exitWriter, finalize, hl]⟩
  · intro guk objs ki cs
    exact chunks_writeobjs guk objs (w, ki)
  · obtain ⟨l, hl⟩ := chunks_startdata w
    exact ⟨l, by simp [finalize, hl]⟩

/-! ### The reader: `DumpFileReader.getobjs` (src/icat/dumpfile.py lines
90-111) instantiated with the XML backend `XMLDumpFileReader`
(src/icat/dumpfile_xml.py lines 115-155) and the helpers `_elem2entity`
and `_searchByReference` (lines 24-108). -/

/-- The schema data of one entity class that the reader inspects:
`BeanName`, `AttrAlias`, `InstAttr`, and `InstRel` / `InstMRel` fused with
`getAttrType` (mapping each relation attribute name to the `BeanName` of
the related type). -/
structure EntitySchema where
  beanName : String
  attrAlias : List (String × String)
  instAttr : List String
  instRel : List (String × String)
  instMRel : List (String × String)
deriving DecidableEq, Repr

/-- An XML element (`lxml.etree._Element`): tag, attributes, text and
subelements. -/
inductive RElem where
  | node (tag : String) (attrs : List (String × String)) (text : Option String)
      (children : List RElem)

def RElem.tag : RElem → String
  | .node t _ _ _ => t

def RElem.attrs : RElem → List (String × String)
  | .node _ a _ _ => a

def RElem.text : RElem → Option String
  | .node _ _ tx _ => tx

def RElem.children : RElem → List RElem
  | .node _ _ _ c => c

/-- `element.get(name)`: attribute lookup. -/
def RElem.get (e : RElem) (a : String) : Option String := dlookup e.attrs a

/-- A reconstructed entity object as built by `_elem2entity`: its
`BeanName`, the scalar attributes set on it, its many-to-one relation
attributes, and the flat event list of one-to-many child appends (an
`(attr, child)` entry per `getattr(obj, attr).append(robj)`, in order). -/
inductive IObj where
  | mk (beanName : String) (attrs : List (String × Option String))
      (rels : List (String × IObj)) (mrels : List (String × IObj))

def IObj.beanName : IObj → String
  | .mk b _ _ _ => b

def IObj.attrs : IObj → List (String × Option String)
  | .mk _ a _ _ => a

def IObj.rels : IObj → List (String × IObj)
  | .mk _ _ r _ => r

def IObj.mrels : IObj → List (String × IObj)
  | .mk _ _ _ m => m

/-- `setattr(obj, attr, subelem.text)` for a scalar attribute. -/
def IObj.setAttr : IObj → String → Option String → IObj
  | .mk b a r m, attr, v => .mk b (dinsert a attr v) r m

/-- `setattr(obj, attr, robj)` for a many-to-one relation attribute. -/
def IObj.setRel : IObj → String → IObj → IObj
  | .mk b a r m, attr, o => .mk b a (dinsert r attr o) m

/-- `getattr(obj, attr).append(robj)` for a one-to-many relation
attribute. -/
def IObj.addMRel : IObj → String → IObj → IObj
  | .mk b a r m, attr, o => .mk b a r (m ++ [(attr, o)])

/-- The embedded children of relation attribute `a`, in append order. -/
def IObj.mrelOf (o : IObj) (a : String) : List IObj :=
  (o.mrels.filter (fun p => p.1 = a)).map Prod.snd

/-- Modelled from the spec: `icat.entity.Entity.truncateRelations` is
defined in `icat/entity.py`, which is not part of this repository.
Spec section 4.4: after yielding, "the relation handles on the yielded
object are truncated (freed)"; modelled as removing all relation handles
while keeping the scalar attributes. -/
def truncateRelations : IObj → IObj
  | .mk b a _ _ => .mk b a [] []

/-- Python truthiness of an optional string (`if key:`): false for absent
and for the empty string. -/
def truthy : Option String → Bool
  | none => false
  | some s => decide (s ≠ "")

/-- The object index of the reader (`objindex`): maps unique keys to
resolved entity objects. -/
abbrev ObjIndex := List (String × IObj)

/-- Reader errors: Python `KeyError` on a typemap lookup, a
reference-resolution failure of `client.searchUniqueKey`, an
`assertedSearch` that found zero or more than one object, and the
`ValueError` of `_elem2entity` for an invalid subelement. -/
inductive RErr where
  | keyError (key : String)
  | searchUniqueKeyErr (key : String)
  | searchCountErr (objtype : String) (found : Nat)
  | invalidSubelem (subtag : String) (elemtag : String)
deriving DecidableEq, Repr

/-- The reader environment: `client.typemap` (instance type name to entity
class) plus the remote side of the two collaborator lookups of
`icat/client.py` (not part of this repository): the reverse unique-key
lookup and the attribute-equality search. -/
structure ReadEnv where
  typemap : List (String × EntitySchema)
  remoteKey : String → Option IObj
  remoteSearch : String → List (String × String) → List IObj

/-- Modelled from the spec: `client.searchUniqueKey(key, objindex)`
(`icat/client.py` is not part of this repository).  Spec sections 4.4 and
6: resolve the key via the index, on a miss via the collaborator-side
reverse lookup `searchByRemoteKey(key, cache)`; a key that resolves
neither locally nor remotely is a `ReferenceResolutionError`. -/
def searchUniqueKey (env : ReadEnv) (key : String) (objindex : ObjIndex) :
    Except RErr IObj :=
  match dlookup objindex key with
  | some o => .ok o
  | none =>
      match env.remoteKey key with
      | some o => .ok o
      | none => .error (.searchUniqueKeyErr key)

/-- Modelled from the spec: `client.assertedSearch(query)`
(`icat/client.py` is not part of this repository).  Spec section 6:
`searchUnique(type, attributeEqualityConditions)` returns exactly one
entity and fails if 0 or more than 1 match. -/
def assertedSearch (env : ReadEnv) (objtype : String)
    (conditions : List (String × String)) : Except RErr IObj :=
  match env.remoteSearch objtype conditions with
  | [o] => .ok o
  | l => .error (.searchCountErr objtype l.length)

/-- `_searchByReference` (src/icat/dumpfile_xml.py lines 74-86): a truthy
`ref` attribute is resolved as a unique key; otherwise every attribute
except `id` becomes an equality condition `a = '<value>'` of an
`assertedSearch` query against the referenced type. -/
def refConditions (element : RElem) : List (String × String) :=
  ((element.attrs.map Prod.fst).filter (fun a => a ≠ "id")).map
    (fun a => (a, "= '" ++ (element.get a).getD "" ++ "'"))

/-- `_searchByReference` (src/icat/dumpfile_xml.py lines 74-86): a truthy
`ref` attribute is resolved as a unique key; otherwise the non-id
attributes become the equality conditions of an `assertedSearch` query
against the referenced type. -/
def searchByReference (env : ReadEnv) (element : RElem) (objtype : String)
    (objindex : ObjIndex) : Except RErr IObj :=
  let ref := element.get "ref"
  if truthy ref then searchUniqueKey env (ref.getD "") objindex
  else assertedSearch env objtype (refConditions element)

/-- `self.insttypemap = { c.BeanName: t for t, c in client.typemap.items() }`
(src/icat/dumpfile_xml.py lines 122-123). -/
def insttypemapOf (tm : List (String × EntitySchema)) : List (String × String) :=
  tm.foldl (fun m p => dinsert m p.2.beanName p.1) []

mutual

/-- `_elem2entity` (src/icat/dumpfile_xml.py lines 88-108): create a fresh
object of the instance type `insttypemap[objtype]` and process the
subelements in document order: the subelement tag, mapped through
`AttrAlias`, must name a scalar attribute (set from the subelement text),
a many-to-one relation (resolved through `_searchByReference`), or a
one-to-many relation (reconstructed recursively and appended); anything
else is a `ValueError`. -/
def elem2entity (env : ReadEnv) (element : RElem) (objtype : String)
    (objindex : ObjIndex) : Except RErr IObj :=
  match element with
  | .node tag _ _ children =>
      match dlookup (insttypemapOf env.typemap) objtype with
      | none => .error (.keyError objtype)
      | some insttype =>
          match dlookup env.typemap insttype with
          | none => .error (.keyError insttype)
          | some sch =>
              elem2entityFold env sch tag (IObj.mk sch.beanName [] [] [])
                children objindex

/-- The subelement loop of `_elem2entity` (src/icat/dumpfile_xml.py lines
91-107). -/
def elem2entityFold (env : ReadEnv) (sch : EntitySchema) (etag : String)
    (obj : IObj) (subs : List RElem) (objindex : ObjIndex) : Except RErr IObj :=
  match subs with
  | [] => .ok obj
  | sub :: rest =>
      let attr0 := sub.tag
      let attr := (dlookup sch.attrAlias attr0).getD attr0
      if attr ∈ sch.instAttr then
        elem2entityFold env sch etag (obj.setAttr attr sub.text) rest objindex
      else
        match dlookup sch.instRel attr with
        | some rtype =>
            match searchByReference env sub rtype objindex with
            | .error e => .error e
            | .ok robj =>
                elem2entityFold env sch etag (obj.setRel attr robj) rest objindex
        | none =>
            match dlookup sch.instMRel attr with
            | some rtype =>
                match elem2entity env sub rtype objindex with
                | .error e => .error e
                | .ok robj =>
                    elem2entityFold env sch etag (obj.addMRel attr robj) rest objindex
            | none => .error (.invalidSubelem sub.tag etag)

end

/-- `tag.endswith("Ref")` (src/icat/dumpfile_xml.py line 141), expressed
on the character list so that it evaluates by `decide`. -/
def tagEndsRef (tag : String) : Bool :=
  decide (tag.data.reverse.take 3 = ['f', 'e', 'R'])

/-- `tag[0:-3]` (src/icat/dumpfile_xml.py line 147): the tag without its
last three characters. -/
def tagBase (tag : String) : String := ⟨tag.data.take (tag.data.length - 3)⟩

/-- Loop body of `XMLDumpFileReader.getobjs_from_data`
(src/icat/dumpfile_xml.py lines 138-155) for one chunk element: an element
whose tag ends in `"Ref"` references an already existing object; if it
carries a truthy key it is resolved via `_searchByReference` and
registered in the object index without being yielded, otherwise it is
skipped; any other element is reconstructed with `_elem2entity` and
yielded with its key. -/
def processElem (env : ReadEnv) (elem : RElem) (objindex : ObjIndex) :
    Except RErr (Option (Option String × IObj) × ObjIndex) :=
  let key := elem.get "id"
  let tag := elem.tag
  if tagEndsRef tag then
    if truthy key then
      match dlookup env.typemap (tagBase tag) with
      | none => .error (.keyError (tagBase tag))
      | some cls =>
          match searchByReference env elem cls.beanName objindex with
          | .error e => .error e
          | .ok obj => .ok (none, dinsert objindex (key.getD "") obj)
    else .ok (none, objindex)
  else
    match dlookup env.typemap tag with
    | none => .error (.keyError tag)
    | some cls =>
        match elem2entity env elem cls.beanName objindex with
        | .error e => .error e
        | .ok obj => .ok (some (key, obj), objindex)

/-- One iteration of the consumer loop of `DumpFileReader.getobjs`
(src/icat/dumpfile.py lines 107-111) fused with the generator
`getobjs_from_data` under Python generator semantics: a yielded object is
truncated in place after the caller consumed it and then, if its key is
truthy, registered in the object index, so that later elements of the same
chunk see the registration. -/
def getobjsChunkStep (env : ReadEnv) (acc : List (Option String × IObj) × ObjIndex)
    (elem : RElem) : Except RErr (List (Option String × IObj) × ObjIndex) :=
  match processElem env elem acc.2 with
  | .error e => .error e
  | .ok (none, oi) => .ok (acc.1, oi)
  | .ok (some (key, obj), oi) =>
      .ok (acc.1 ++ [(key, obj)],
        if truthy key then dinsert oi (key.getD "") (truncateRelations obj) else oi)

/-- Processing of one data chunk by `DumpFileReader.getobjs`: the fused
generator/consumer loop over the chunk elements, collecting the yielded
`(key, object)` pairs and threading the object index. -/
def getobjsChunk (env : ReadEnv) (data : List RElem) (objindex : ObjIndex) :
    Except RErr (List (Option String × IObj) × ObjIndex) :=
  data.foldlM (getobjsChunkStep env) ([], objindex)

/-- One iteration of the chunk loop of `DumpFileReader.getobjs`
(src/icat/dumpfile.py lines 104-111): when `reset` holds (no caller index
was supplied) the chunk is processed from a fresh empty index, otherwise
from the threaded one. -/
def getobjsFoldFn (env : ReadEnv) (reset : Bool)
    (acc : List (Option String × IObj) × ObjIndex) (data : List RElem) :
    Except RErr (List (Option String × IObj) × ObjIndex) :=
  match getobjsChunk env data (if reset then [] else acc.2) with
  | .error e => .error e
  | .ok (ys, oi') => .ok (acc.1 ++ ys, oi')

/-- `DumpFileReader.getobjs` (src/icat/dumpfile.py lines 90-111):
`resetindex = (objindex is None)` is computed once; then the chunks are
processed in order, collecting the yields. -/
def getobjs (env : ReadEnv) (chunks : List (List RElem))
    (objindex : Option ObjIndex) :
    Except RErr (List (Option String × IObj) × ObjIndex) :=
  chunks.foldlM (getobjsFoldFn env objindex.isNone) ([], objindex.getD [])

/-! ### Claims C3, C10, C9: element handling and index registration -/

/-- C3: a chunk element whose tag ends in `"Ref"` and that carries a
(truthy) key is resolved through `_searchByReference` (key index or remote
lookup) and registered in the object index under that key, but never
yielded; and every element that is yielded at all comes from a tag not
ending in `"Ref"`. -/
theorem ref_elements_indexed_not_yielded :
    (∀ (env : ReadEnv) (elem : RElem) (oi : ObjIndex) (key : String)
      (cls : EntitySchema) (obj : IObj),
      tagEndsRef elem.tag = true →
      elem.get "id" = some key → key ≠ "" →
      dlookup env.typemap (tagBase elem.tag) = some cls →
      searchByReference env elem cls.beanName oi = .ok obj →
      processElem env elem oi = .ok (none, dinsert oi key obj)) ∧
    (∀ (env : ReadEnv) (elem : RElem) (oi : ObjIndex)
      (y : Option String × IObj) (oi' : ObjIndex),
      processElem env elem oi = .ok (some y, oi') → tagEndsRef elem.tag = false) := by
  constructor
  · intro env elem oi key cls obj htag hkey hne hcls hsearch
    simp [processElem, htag, hkey, truthy, hne, hcls, hsearch]
  · intro env elem oi y oi' h
    by_cases htag : tagEndsRef elem.tag
    · exfalso
      by_cases hkeyt : truthy (elem.get "id")
      · simp only [processElem, htag, if_true, hkeyt] at h
        cases hdl : dlookup env.typemap (tagBase elem.tag) with
        | none => simp [hdl] at h
        | some cls =>
            cases hsb : searchByReference env elem cls.beanName oi with
            | error e => simp [hdl, hsb] at h
            | ok o => simp [hdl, hsb] at h
      · simp [processElem, htag, hkeyt] at h
    · simpa using htag

/-- Witness for C3 at a concrete input: a `datasetRef` element carrying a
key that resolves through the remote lookup. -/
theorem ref_elements_indexed_not_yielded_witness :
    processElem
      ⟨[("dataset", ⟨"Dataset", [], ["name"], [], []⟩)],
        fun k => if k = "DS_1" then some (IObj.mk "Dataset" [] [] []) else none,
        fun _ _ => []⟩
      (RElem.node "datasetRef" [("id", "DS_1"), ("ref", "DS_1")] none [])
      [] =
      .ok (none, [("DS_1", IObj.mk "Dataset" [] [] [])]) := by
  have h := ref_elements_indexed_not_yielded.1
    ⟨[("dataset", ⟨"Dataset", [], ["name"], [], []⟩)],
      fun k => if k = "DS_1" then some (IObj.mk "Dataset" [] [] []) else none,
      fun _ _ => []⟩
    (RElem.node "datasetRef" [("id", "DS_1"), ("ref", "DS_1")] none [])
    [] "DS_1" ⟨"Dataset", [], ["name"], [], []⟩ (IObj.mk "Dataset" [] [] [])
    (by decide) (by decide) (by decide) (by decide) (by rfl)
  simpa [dinsert] using h

/-- C10: a chunk element whose tag ends in `"Ref"` but whose key is absent
or empty is skipped silently: no error, nothing yielded, and the object
index is returned unchanged; the result does not depend on the remote
environment, so no local or remote lookup can influence it. -/
theorem ref_without_key_skipped (env : ReadEnv) (elem : RElem) (oi : ObjIndex)
    (htag : tagEndsRef elem.tag = true) (hkey : truthy (elem.get "id") = false) :
    processElem env elem oi = .ok (none, oi) := by
  simp [processElem, htag, hkey]

/-- Witness for C10 at a concrete input: a keyless `datafileRef` element in
an environment whose remote lookups would fail. -/
theorem ref_without_key_skipped_witness :
    processElem ⟨[], fun _ => none, fun _ _ => []⟩
      (RElem.node "datafileRef" [("name", "f.dat")] none [])
      [("k", IObj.mk "User" [] [] [])] =
      .ok (none, [("k", IObj.mk "User" [] [] [])]) :=
  ref_without_key_skipped ⟨[], fun _ => none, fun _ _ => []⟩
    (RElem.node "datafileRef" [("name", "f.dat")] none [])
    [("k", IObj.mk "User" [] [] [])] (by decide) (by decide)

/-- C9: in the consumer loop of `getobjs`, a yielded object with a truthy
key is registered in the object index only as its truncated version (whose
relation handles are empty), so later same-chunk references that resolve
through the index see the truncated object; a yielded object with an
absent or empty key is yielded but leaves the index exactly as
`getobjs_from_data` produced it (it is never indexed). -/
theorem yielded_objects_truncated_before_indexing
    (env : ReadEnv) (ys : List (Option String × IObj)) (oi : ObjIndex)
    (elem : RElem) (key : Option String) (obj : IObj) (oi0 : ObjIndex)
    (h : processElem env elem oi = .ok (some (key, obj), oi0)) :
    (truthy key = true →
      getobjsChunkStep env (ys, oi) elem =
        .ok (ys ++ [(key, obj)], dinsert oi0 (key.getD "") (truncateRelations obj)) ∧
      (truncateRelations obj).rels = [] ∧ (truncateRelations obj).mrels = []) ∧
    (truthy key = false →
      getobjsChunkStep env (ys, oi) elem = .ok (ys ++ [(key, obj)], oi0)) := by
  constructor
  · intro ht
    refine ⟨by simp [getobjsChunkStep, h, ht], ?_, ?_⟩
    · cases obj; rfl
    · cases obj; rfl
  · intro ht
    simp [getobjsChunkStep, h, ht]

/-- Witness for C9 at a concrete input: a `user` element with key
`User_jdoe` and one resolved to-one relation is yielded untruncated but
indexed truncated. -/
theorem yielded_objects_truncated_before_indexing_witness :
    getobjsChunkStep
      ⟨[("user", ⟨"User", [], ["name"], [("facility", "Facility")], []⟩)],
        fun k => if k = "Fac_1" then some (IObj.mk "Facility" [] [] []) else none,
        fun _ _ => []⟩
      ([], [])
      (RElem.node "user" [("id", "User_jdoe")] none
        [RElem.node "name" [] (some "jdoe") [],
         RElem.node "facility" [("ref", "Fac_1")] none []]) =
      .ok ([(some "User_jdoe",
              IObj.mk "User" [("name", some "jdoe")]
                [("facility", IObj.mk "Facility" [] [] [])] [])],
           [("User_jdoe", IObj.mk "User" [("name", some "jdoe")] [] [])]) := by
  have h := yielded_objects_truncated_before_indexing
    ⟨[("user", ⟨"User", [], ["name"], [("facility", "Facility")], []⟩)],
      fun k => if k = "Fac_1" then some (IObj.mk "Facility" [] [] []) else none,
      fun _ _ => []⟩
    [] []
    (RElem.node "user" [("id", "User_jdoe")] none
      [RElem.node "name" [] (some "jdoe") [],
       RElem.node "facility" [("ref", "Fac_1")] none []])
    (some "User_jdoe")
    (IObj.mk "User" [("name", some "jdoe")]
      [("facility", IObj.mk "Facility" [] [] [])] [])
    [] (by rfl)
  have h1 := (h.1 (by decide)).1
  simpa [dinsert, truncateRelations] using h1

/-! ### Claim C5: lifecycle of the reader's object index -/

/-- Independent per-chunk processing: every chunk handled from a fresh
empty object index, keeping only the yields.  This is the reference
behaviour the internal-index mode of `getobjs` is compared against. -/
def chunksIndependent (env : ReadEnv) : List (List RElem) →
    Except RErr (List (Option String × IObj))
  | [] => .ok []
  | c :: cs =>
      match getobjsChunk env c [] with
      | .error e => .error e
      | .ok (ys, _) =>
          match chunksIndependent env cs with
          | .error e => .error e
          | .ok ys2 => .ok (ys ++ ys2)

theorem getobjsFold_acc (env : ReadEnv) (reset : Bool) (cs : List (List RElem)) :
    ∀ (p : List (Option String × IObj)) (oi : ObjIndex),
      cs.foldlM (getobjsFoldFn env reset) (p, oi) =
        (cs.foldlM (getobjsFoldFn env reset) ([], oi)).map
          (fun r => (p ++ r.1, r.2)) := by
  induction cs with
  | nil => intro p oi; simp [List.foldlM, Except.map, pure, Except.pure]
  | cons c cs ih =>
      intro p oi
      simp only [List.foldlM_cons]
      cases hch : getobjsChunk env c (if reset then [] else oi) with
      | error e =>
          simp [getobjsFoldFn, hch, Except.map, bind, Except.bind]
      | ok r =>
          obtain ⟨ys, oi'⟩ := r
          have hfn1 : getobjsFoldFn env reset (p, oi) c = .ok (p ++ ys, oi') := by
            simp [getobjsFoldFn, hch]
          have hfn2 : getobjsFoldFn env reset ([], oi) c = .ok (ys, oi') := by
            simp [getobjsFoldFn, hch]
          rw [hfn1, hfn2]
          show cs.foldlM (getobjsFoldFn env reset) (p ++ ys, oi') =
            (cs.foldlM (getobjsFoldFn env reset) (ys, oi')).map
              (fun r => (p ++ r.1, r.2))
          rw [ih (p ++ ys) oi', ih ys oi']
          cases hfold : cs.foldlM (getobjsFoldFn env reset) ([], oi') with
          | error e => simp [Except.map]
          | ok r2 => simp [Except.map]

theorem getobjsFold_reset_index_irrelevant (env : ReadEnv) (cs : List (List RElem)) :
    ∀ (oi1 oi2 : ObjIndex),
      (cs.foldlM (getobjsFoldFn env true) ([], oi1)).map Prod.fst =
        (cs.foldlM (getobjsFoldFn env true) ([], oi2)).map Prod.fst := by
  induction cs with
  | nil => intro oi1 oi2; rfl
  | cons c cs ih =>
      intro oi1 oi2
      simp only [List.foldlM_cons]
      cases hch : getobjsChunk env c [] with
      | error e => simp [getobjsFoldFn, hch, Except.map, bind, Except.bind]
      | ok r =>
          obtain ⟨ys, oi'⟩ := r
          have hfn : ∀ oi : ObjIndex, getobjsFoldFn env true ([], oi) c =
              .ok (ys, oi') := by
            intro oi
            simp [getobjsFoldFn, hch]
          rw [hfn oi1, hfn oi2]

theorem getobjsNone_fst (env : ReadEnv) : ∀ (cs : List (List RElem)) (oi : ObjIndex),
    (cs.foldlM (getobjsFoldFn env true) ([], oi)).map Prod.fst =
      chunksIndependent env cs := by
  intro cs
  induction cs with
  | nil => intro oi; rfl
  | cons c cs ih =>
      intro oi
      simp only [List.foldlM_cons]
      cases hch : getobjsChunk env c [] with
      | error e =>
          simp [getobjsFoldFn, hch, chunksIndependent, Except.map, bind, Except.bind]
      | ok r =>
          obtain ⟨ys, oi'⟩ := r
          have hfn : getobjsFoldFn env true ([], oi) c = .ok (ys, oi') := by
            simp [getobjsFoldFn, hch]
          rw [hfn]
          show (cs.foldlM (getobjsFoldFn env true) (ys, oi')).map Prod.fst =
            chunksIndependent env (c :: cs)
          rw [getobjsFold_acc env true cs ys oi']
          simp only [chunksIndependent, hch]
          rw [← ih oi']
          cases hfold : cs.foldlM (getobjsFoldFn env true) ([], oi') with
          | error e => simp [Except.map]
          | ok r2 => simp [Except.map]

theorem processElem_index (env : ReadEnv) (elem : RElem) (oi : ObjIndex)
    (y : Option (Option String × IObj)) (oi' : ObjIndex)
    (h : processElem env elem oi = .ok (y, oi')) :
    oi' = oi ∨ ∃ k v, oi' = dinsert oi k v := by
  by_cases htag : tagEndsRef elem.tag
  · by_cases hk : truthy (elem.get "id")
    · simp only [processElem, htag, hk, if_true] at h
      cases hdl : dlookup env.typemap (tagBase elem.tag) with
      | none => simp [hdl] at h
      | some cls =>
          cases hsb : searchByReference env elem cls.beanName oi with
          | error e => simp [hdl, hsb] at h
          | ok o =>
              simp [hdl, hsb] at h
              exact Or.inr ⟨_, _, h.2.symm⟩
    · simp only [processElem, htag, if_true] at h
      rw [if_neg (by simp [hk])] at h
      simp at h
      exact Or.inl h.2.symm
  · rw [Bool.not_eq_true] at htag
    simp only [processElem, htag, Bool.false_eq_true, if_false] at h
    cases hdl : dlookup env.typemap elem.tag with
    | none => simp [hdl] at h
    | some cls =>
        cases he : elem2entity env elem cls.beanName oi with
        | error e => simp [hdl, he] at h
        | ok o =>
            simp [hdl, he] at h
            exact Or.inl h.2.symm

theorem getobjsChunkStep_mono (env : ReadEnv)
    (acc : List (Option String × IObj) × ObjIndex) (elem : RElem)
    (r : List (Option String × IObj) × ObjIndex)
    (h : getobjsChunkStep env acc elem = .ok r) :
    ∀ k, (dlookup acc.2 k).isSome → (dlookup r.2 k).isSome := by
  intro k hk
  unfold getobjsChunkStep at h
  cases hp : processElem env elem acc.2 with
  | error e => rw [hp] at h; simp at h
  | ok p =>
      obtain ⟨y, oi⟩ := p
      have hoi : (dlookup oi k).isSome := by
        rcases processElem_index env elem acc.2 y oi hp with h1 | ⟨k', v', h2⟩
        · rwa [h1]
        · rw [h2]; exact dlookup_dinsert_isSome _ _ _ _ hk
      rw [hp] at h
      cases y with
      | none =>
          simp at h
          subst h
          exact hoi
      | some kv =>
          obtain ⟨key, obj⟩ := kv
          simp at h
          subst h
          by_cases ht : truthy key
          · simp only [ht, if_true]
            exact dlookup_dinsert_isSome _ _ _ _ hoi
          · simp only [ht, Bool.false_eq_true, if_false]
            exact hoi

theorem getobjsChunk_mono_aux (env : ReadEnv) (data : List RElem) :
    ∀ (acc r : List (Option String × IObj) × ObjIndex),
      data.foldlM (getobjsChunkStep env) acc = .ok r →
      ∀ k, (dlookup acc.2 k).isSome → (dlookup r.2 k).isSome := by
  induction data with
  | nil =>
      intro acc r h k hk
      have hacc : acc = r := by simpa [List.foldlM, pure, Except.pure] using h
      rw [← hacc]
      exact hk
  | cons c rest ih =>
      intro acc r h k hk
      simp only [List.foldlM_cons] at h
      cases hs : getobjsChunkStep env acc c with
      | error e => rw [hs] at h; simp [bind, Except.bind] at h
      | ok s =>
          rw [hs] at h
          exact ih s r h k (getobjsChunkStep_mono env acc c s hs k hk)

/-- C5: with `objindex = None`, `getobjs` installs a fresh empty internal
index at the start of every chunk, so the yields are exactly those of
processing each chunk independently from an empty index (no key registered
in one chunk is visible in a later one); with a caller-supplied index, the
index coming out of one chunk (including its registrations) is exactly the
index the next chunk starts from, and no operation ever removes an entry
from the index, so entries registered in earlier chunks stay visible. -/
theorem getobjs_objindex_lifecycle :
    (∀ (env : ReadEnv) (chunks : List (List RElem)),
      (getobjs env chunks none).map Prod.fst = chunksIndependent env chunks) ∧
    (∀ (env : ReadEnv) (c : List RElem) (cs : List (List RElem)) (oi0 : ObjIndex),
      getobjs env (c :: cs) (some oi0) =
        match getobjsChunk env c oi0 with
        | .error e => .error e
        | .ok (ys, oi1) =>
            match getobjs env cs (some oi1) with
            | .error e => .error e
            | .ok (ys2, oi2) => .ok (ys ++ ys2, oi2)) ∧
    (∀ (env : ReadEnv) (data : List RElem) (oi : ObjIndex)
      (ys : List (Option String × IObj)) (oi' : ObjIndex),
      getobjsChunk env data oi = .ok (ys, oi') →
      ∀ k, (dlookup oi k).isSome → (dlookup oi' k).isSome) := by
  refine ⟨?_, ?_, ?_⟩
  · intro env chunks
    simp only [getobjs, Option.isNone_none, Option.getD_none]
    exact getobjsNone_fst env chunks []
  · intro env c cs oi0
    simp only [getobjs, Option.isNone_some, Option.getD_some, List.foldlM_cons]
    cases hch : getobjsChunk env c oi0 with
    | error e =>
        have hfn : getobjsFoldFn env false ([], oi0) c = .error e := by
          simp [getobjsFoldFn, hch]
        rw [hfn]
        rfl
    | ok r =>
        obtain ⟨ys, oi1⟩ := r
        have hfn : getobjsFoldFn env false ([], oi0) c = .ok (ys, oi1) := by
          simp [getobjsFoldFn, hch]
        rw [hfn]
        show cs.foldlM (getobjsFoldFn env false) (ys, oi1) = _
        rw [getobjsFold_acc env false cs ys oi1]
        cases hfold : cs.foldlM (getobjsFoldFn env false) ([], oi1) with
        | error e => simp [getobjs, hfold, Except.map]
        | ok r2 => simp [getobjs, hfold, Except.map]
  · intro env data oi ys oi' h k hk
    exact getobjsChunk_mono_aux env data ([], oi) (ys, oi') h k hk

/-- Witness for C5 at a concrete input: two one-element chunks; with the
internal index the second chunk cannot see the first chunk's key, with a
caller-supplied index it can, and the index only grows. -/
theorem getobjs_objindex_lifecycle_witness :
    (getobjs ⟨[("user", ⟨"User", [], ["name"], [], []⟩)], fun _ => none,
        fun _ _ => []⟩
      [[RElem.node "user" [("id", "u1")] none []]] none).map Prod.fst =
      chunksIndependent ⟨[("user", ⟨"User", [], ["name"], [], []⟩)],
        fun _ => none, fun _ _ => []⟩
        [[RElem.node "user" [("id", "u1")] none []]] ∧
    (∀ k, (dlookup [("u0", IObj.mk "User" [] [] [])] k).isSome →
      (dlookup [("u0", IObj.mk "User" [] [] []),
                ("u1", IObj.mk "User" [] [] [])] k).isSome) := by
  constructor
  · exact getobjs_objindex_lifecycle.1
      ⟨[("user", ⟨"User", [], ["name"], [], []⟩)], fun _ => none, fun _ _ => []⟩
      [[RElem.node "user" [("id", "u1")] none []]]
  · exact getobjs_objindex_lifecycle.2.2
      ⟨[("user", ⟨"User", [], ["name"], [], []⟩)], fun _ => none, fun _ _ => []⟩
      [RElem.node "user" [("id", "u1")] none []]
      [("u0", IObj.mk "User" [] [] [])]
      [(some "u1", IObj.mk "User" [] [] [])]
      [("u0", IObj.mk "User" [] [] []), ("u1", IObj.mk "User" [] [] [])]
      (by rfl)

/-! ### Claim C8: unknown fields and unresolvable references -/

/-- A subelement tag that, after alias mapping, names a known instance
attribute, to-one relation or to-many relation of the entity type. -/
def knownAttr (sch : EntitySchema) (sub : RElem) : Prop :=
  ((dlookup sch.attrAlias sub.tag).getD sub.tag) ∈ sch.instAttr ∨
  (dlookup sch.instRel ((dlookup sch.attrAlias sub.tag).getD sub.tag)).isSome ∨
  (dlookup sch.instMRel ((dlookup sch.attrAlias sub.tag).getD sub.tag)).isSome

theorem elem2entityFold_ok_known (env : ReadEnv) (sch : EntitySchema) (etag : String) :
    ∀ (subs : List RElem) (obj : IObj) (oi : ObjIndex) (res : IObj),
      elem2entityFold env sch etag obj subs oi = .ok res →
      ∀ sub ∈ subs, knownAttr sch sub := by
  intro subs
  induction subs with
  | nil => intro obj oi res h sub hs; simp at hs
  | cons s rest ih =>
      intro obj oi res h sub hs
      rw [elem2entityFold] at h
      rcases List.mem_cons.mp hs with hsub | hsub
      · subst hsub
        by_cases ha : ((dlookup sch.attrAlias sub.tag).getD sub.tag) ∈ sch.instAttr
        · exact Or.inl ha
        · rw [if_neg ha] at h
          cases hr : dlookup sch.instRel ((dlookup sch.attrAlias sub.tag).getD sub.tag) with
          | some rtype => exact Or.inr (Or.inl (by simp [hr]))
          | none =>
              simp only [hr] at h
              cases hm : dlookup sch.instMRel
                  ((dlookup sch.attrAlias sub.tag).getD sub.tag) with
              | some rtype => exact Or.inr (Or.inr (by simp [hm]))
              | none => simp only [hm] at h; simp at h
      · by_cases ha : ((dlookup sch.attrAlias s.tag).getD s.tag) ∈ sch.instAttr
        · rw [if_pos ha] at h
          exact ih _ _ _ h sub hsub
        · rw [if_neg ha] at h
          cases hr : dlookup sch.instRel ((dlookup sch.attrAlias s.tag).getD s.tag) with
          | some rtype =>
              simp only [hr] at h
              cases hsb : searchByReference env s rtype oi with
              | error e => simp only [hsb] at h; simp at h
              | ok robj =>
                  simp only [hsb] at h
                  exact ih _ _ _ h sub hsub
          | none =>
              simp only [hr] at h
              cases hm : dlookup sch.instMRel ((dlookup sch.attrAlias s.tag).getD s.tag) with
              | some rtype =>
                  simp only [hm] at h
                  cases he : elem2entity env s rtype oi with
                  | error e => simp only [he] at h; simp at h
                  | ok robj =>
                      simp only [he] at h
                      exact ih _ _ _ h sub hsub
              | none => simp only [hm] at h; simp at h

/-- C8: a subelement whose tag (after alias mapping) is not a known
instance attribute, to-one relation or to-many relation of the entity type
makes `_elem2entity` fail, so no object is produced for the record; and a
reference resolved by literal attribute values whose remote exact-match
search returns zero or more than one object makes `_searchByReference`
fail with the count error. -/
theorem unknown_field_and_bad_reference_fail :
    (∀ (env : ReadEnv) (element : RElem) (objtype : String) (oi : ObjIndex)
      (insttype : String) (sch : EntitySchema) (sub : RElem),
      dlookup (insttypemapOf env.typemap) objtype = some insttype →
      dlookup env.typemap insttype = some sch →
      sub ∈ element.children → ¬ knownAttr sch sub →
      ∃ e, elem2entity env element objtype oi = .error e) ∧
    (∀ (env : ReadEnv) (element : RElem) (objtype : String) (oi : ObjIndex),
      truthy (element.get "ref") = false →
      (env.remoteSearch objtype (refConditions element)).length ≠ 1 →
      searchByReference env element objtype oi =
        .error (.searchCountErr objtype
          (env.remoteSearch objtype (refConditions element)).length)) := by
  constructor
  · intro env element objtype oi insttype sch sub hinst hsch hmem hunk
    cases h : elem2entity env element objtype oi with
    | error e => exact ⟨e, rfl⟩
    | ok res =>
        exfalso
        obtain ⟨tag, attrs, tx, children⟩ := element
        rw [elem2entity] at h
        simp only [hinst, hsch] at h
        exact hunk (elem2entityFold_ok_known env sch tag _ _ oi res h sub hmem)
  · intro env element objtype oi href hlen
    rw [searchByReference]
    rw [if_neg (by simp [href])]
    rw [assertedSearch]
    cases hs : env.remoteSearch objtype (refConditions element) with
    | nil => rfl
    | cons a tl =>
        cases tl with
        | nil => rw [hs] at hlen; simp at hlen
        | cons b tl2 => rfl

/-- Witness for C8 at a concrete input: an element with an unrecognized
`bogus` subelement yields an error, and an attribute reference whose
remote search returns two candidates fails with the count error. -/
theorem unknown_field_and_bad_reference_fail_witness :
    (∃ e, elem2entity
      ⟨[("user", ⟨"User", [], ["name"], [], []⟩)], fun _ => none, fun _ _ => []⟩
      (RElem.node "user" [] none [RElem.node "bogus" [] (some "x") []])
      "User" [] = .error e) ∧
    searchByReference
      ⟨[], fun _ => none,
        fun _ _ => [IObj.mk "User" [] [] [], IObj.mk "User" [] [] []]⟩
      (RElem.node "userRef" [("name", "jdoe")] none []) "User" [] =
      .error (.searchCountErr "User" 2) := by
  constructor
  · exact unknown_field_and_bad_reference_fail.1
      ⟨[("user", ⟨"User", [], ["name"], [], []⟩)], fun _ => none, fun _ _ => []⟩
      (RElem.node "user" [] none [RElem.node "bogus" [] (some "x") []])
      "User" [] "user" ⟨"User", [], ["name"], [], []⟩
      (RElem.node "bogus" [] (some "x") [])
      (by rfl) (by rfl) (by exact List.mem_singleton.mpr rfl)
      (by simp [knownAttr, dlookup, RElem.tag])
  · exact unknown_field_and_bad_reference_fail.2
      ⟨[], fun _ => none,
        fun _ _ => [IObj.mk "User" [] [] [], IObj.mk "User" [] [] []]⟩
      (RElem.node "userRef" [("name", "jdoe")] none []) "User" []
      (by decide) (by decide)

/-! ### Claim C7: `open_dumpfile` (src/icat/dumpfile.py lines 239-309) -/

/-- The `f` argument of `open_dumpfile`: either a file name (a
`basestring`, possibly the special alias `"-"`) or an already open file
object. -/
inductive FileArg where
  | name (s : String)
  | fileobj (h : Nat)
deriving DecidableEq, Repr

/-- The file object ending up inside the constructed reader or writer:
the given file object, a standard stream, or a file freshly opened by name
and mode. -/
inductive FileHandle where
  | given (h : Nat)
  | stdinH
  | stdoutH
  | openedFile (name : String) (mode : String)
deriving DecidableEq, Repr

/-- An I/O action performed on the file system: `open(f, mode)`. -/
inductive IOEvent where
  | openFile (name : String) (mode : String)
deriving DecidableEq, Repr

/-- The `ValueError`s of `open_dumpfile`, and the `IndexError` that
`mode[0]` raises on an empty mode string. -/
inductive ODErr where
  | unknownFormat (formatname : String)
  | invalidMode (mode : String)
  | indexError
deriving DecidableEq, Repr

/-- The constructed backend instance: which registered class was
instantiated, on which file object. -/
structure OpenedInstance where
  cls : String
  file : FileHandle
deriving DecidableEq, Repr

/-- The `Backends` registry after some `register_backend` calls: format
name to (reader class, writer class); classes are identified by name. -/
abbrev BackendReg := List (String × (String × String))

/-- `register_backend` (src/icat/dumpfile.py lines 242-256). -/
def register_backend (backends : BackendReg) (formatname rdr wtr : String) :
    BackendReg :=
  dinsert backends formatname (rdr, wtr)

/-- `open_dumpfile` (src/icat/dumpfile.py lines 258-309): unknown format
names fail first; then `mode[0]` selects the reader class (for `'r'`) or
the writer class (for `'w'`), opening a file only when `f` is a string
other than `"-"`; any other first mode character is a `ValueError`.  The
second component records the file-open events performed. -/
def open_dumpfile (backends : BackendReg) (f : FileArg) (formatname : String)
    (mode : String) : Except ODErr OpenedInstance × List IOEvent :=
  match dlookup backends formatname with
  | none => (.error (.unknownFormat formatname), [])
  | some (rcls, wcls) =>
      match mode.data with
      | [] => (.error .indexError, [])
      | c :: _ =>
          if c = 'r' then
            match f with
            | .name s =>
                if s = "-" then (.ok ⟨rcls, .stdinH⟩, [])
                else (.ok ⟨rcls, .openedFile s mode⟩, [.openFile s mode])
            | .fileobj h => (.ok ⟨rcls, .given h⟩, [])
          else if c = 'w' then
            match f with
            | .name s =>
                if s = "-" then (.ok ⟨wcls, .stdoutH⟩, [])
                else (.ok ⟨wcls, .openedFile s mode⟩, [.openFile s mode])
            | .fileobj h => (.ok ⟨wcls, .given h⟩, [])
          else (.error (.invalidMode mode), [])

/-- C7: `open_dumpfile` fails on an unregistered format name, and fails on
a mode that starts with neither `'r'` nor `'w'` (including the empty
mode); in both failure cases no I/O event is performed, so a file named by
a string is not opened; on success it returns an instance of the
registered reader class when the mode starts with `'r'` and of the
registered writer class when it starts with `'w'`. -/
theorem open_dumpfile_checks :
    (∀ (backends : BackendReg) (f : FileArg) (formatname mode : String),
      dlookup backends formatname = none →
      open_dumpfile backends f formatname mode =
        (.error (.unknownFormat formatname), [])) ∧
    (∀ (backends : BackendReg) (f : FileArg) (formatname mode : String),
      (∀ c rest, mode.data = c :: rest → c ≠ 'r' ∧ c ≠ 'w') →
      ∃ e, open_dumpfile backends f formatname mode = (.error e, [])) ∧
    (∀ (backends : BackendReg) (f : FileArg) (formatname mode : String)
      (rcls wcls : String) (c : Char) (rest : List Char),
      dlookup backends formatname = some (rcls, wcls) →
      mode.data = c :: rest → c = 'r' →
      ∃ fh evs, open_dumpfile backends f formatname mode = (.ok ⟨rcls, fh⟩, evs)) ∧
    (∀ (backends : BackendReg) (f : FileArg) (formatname mode : String)
      (rcls wcls : String) (c : Char) (rest : List Char),
      dlookup backends formatname = some (rcls, wcls) →
      mode.data = c :: rest → c = 'w' →
      ∃ fh evs, open_dumpfile backends f formatname mode = (.ok ⟨wcls, fh⟩, evs)) := by
  refine ⟨?_, ?_, ?_, ?_⟩
  · intro backends f formatname mode h
    simp [open_dumpfile, h]
  · intro backends f formatname mode h
    cases hdl : dlookup backends formatname with
    | none => exact ⟨.unknownFormat formatname, by simp [open_dumpfile, hdl]⟩
    | some p =>
        obtain ⟨rcls, wcls⟩ := p
        cases hm : mode.data with
        | nil => exact ⟨.indexError, by simp [open_dumpfile, hdl, hm]⟩
        | cons c rest =>
            obtain ⟨hr, hw⟩ := h c rest hm
            exact ⟨.invalidMode mode, by simp [open_dumpfile, hdl, hm, hr, hw]⟩
  · intro backends f formatname mode rcls wcls c rest hdl hm hc
    subst hc
    cases f with
    | name s =>
        by_cases hs : s = "-"
        · exact ⟨.stdinH, [], by simp [open_dumpfile, hdl, hm, hs]⟩
        · exact ⟨.openedFile s mode, [.openFile s mode],
            by simp [open_dumpfile, hdl, hm, hs]⟩
    | fileobj h => exact ⟨.given h, [], by simp [open_dumpfile, hdl, hm]⟩
  · intro backends f formatname mode rcls wcls c rest hdl hm hc
    subst hc
    cases f with
    | name s =>
        by_cases hs : s = "-"
        · exact ⟨.stdoutH, [], by simp [open_dumpfile, hdl, hm, hs]⟩
        · exact ⟨.openedFile s mode, [.openFile s mode],
            by simp [open_dumpfile, hdl, hm, hs]⟩
    | fileobj h => exact ⟨.given h, [], by simp [open_dumpfile, hdl, hm]⟩

/-- Witness for C7 at concrete inputs: after registering the XML backend,
an unknown format and an invalid mode fail without I/O, and modes `"r"`
and `"w"` on a named file return the registered classes. -/
theorem open_dumpfile_checks_witness :
    open_dumpfile (register_backend [] "XML" "XMLDumpFileReader"
        "XMLDumpFileWriter") (.name "dump.xml") "YAML" "r" =
      (.error (.unknownFormat "YAML"), []) ∧
    (∃ e, open_dumpfile (register_backend [] "XML" "XMLDumpFileReader"
        "XMLDumpFileWriter") (.name "dump.xml") "XML" "x" = (.error e, [])) ∧
    (∃ fh evs, open_dumpfile (register_backend [] "XML" "XMLDumpFileReader"
        "XMLDumpFileWriter") (.name "dump.xml") "XML" "r" =
      (.ok ⟨"XMLDumpFileReader", fh⟩, evs)) ∧
    (∃ fh evs, open_dumpfile (register_backend [] "XML" "XMLDumpFileReader"
        "XMLDumpFileWriter") (.name "dump.xml") "XML" "w" =
      (.ok ⟨"XMLDumpFileWriter", fh⟩, evs)) := by
  refine ⟨?_, ?_, ?_, ?_⟩
  · exact open_dumpfile_checks.1 _ _ _ _ (by decide)
  · exact open_dumpfile_checks.2.1 _ _ _ "x" (by
      intro c rest hcr
      have h0 : ('x' :: ([] : List Char)) = c :: rest := hcr
      injection h0 with h1 h2
      subst h1
      exact ⟨by decide, by decide⟩)
  · exact open_dumpfile_checks.2.2.1 _ _ _ "r" "XMLDumpFileReader"
      "XMLDumpFileWriter" 'r' [] (by decide) (by decide) rfl
  · exact open_dumpfile_checks.2.2.2 _ _ _ "w" "XMLDumpFileReader"
      "XMLDumpFileWriter" 'w' [] (by decide) (by decide) rfl

/-! ### Claim C6: round trip of embedded one-to-many children
(`_entity2elem`, src/icat/dumpfile_xml.py lines 24-72, against
`_elem2entity`, lines 88-108). -/

/-- A scalar attribute value on a writer-side entity, before the string
conversion of `_entity2elem` (src/icat/dumpfile_xml.py lines 33-58).
Datetime values, which the source converts to ISO strings, are represented
by their converted string form through `vstr`. -/
inductive AttrVal where
  | vbool (b : Bool)
  | vint (n : Int)
  | vstr (s : String)
deriving DecidableEq, Repr

/-- Python `str` of a natural number. -/
def natStr (n : Nat) : String := ⟨natDigits n⟩

/-- The string conversion of `_entity2elem` (src/icat/dumpfile_xml.py
lines 36-58): `str(v).lower()` for booleans, `str(v)` for integers,
strings unchanged. -/
def attrValStr : AttrVal → String
  | .vbool b => if b then "true" else "false"
  | .vint n => if n < 0 then "-" ++ natStr n.natAbs else natStr n.natAbs
  | .vstr s => s

/-- A writer-side entity object: its instance type, the attribute name
sets the encoder iterates over (`InstAttr`, `InstRel`, `InstMRel`) and the
valuations `getattr` reads (an absent entry is Python `None`). -/
inductive WObj where
  | mk (instancetype : String) (instAttr : List String) (instRel : List String)
      (instMRel : List String) (attrvals : List (String × AttrVal))
      (relvals : List (String × WObj)) (mrelvals : List (String × List WObj))

def WObj.instancetype : WObj → String
  | .mk t _ _ _ _ _ _ => t

def WObj.instAttr : WObj → List String
  | .mk _ a _ _ _ _ _ => a

def WObj.instRel : WObj → List String
  | .mk _ _ r _ _ _ _ => r

def WObj.instMRel : WObj → List String
  | .mk _ _ _ m _ _ _ => m

def WObj.attrvals : WObj → List (String × AttrVal)
  | .mk _ _ _ _ av _ _ => av

def WObj.relvals : WObj → List (String × WObj)
  | .mk _ _ _ _ _ rv _ => rv

def WObj.mrelvals : WObj → List (String × List WObj)
  | .mk _ _ _ _ _ _ mv => mv

/-- Stable insertion of `x` into a sorted list: `x` is placed before the
first element it compares `le` to, so that elements with equal keys keep
their original relative order. -/
def sinsert (le : α → α → Bool) (x : α) : List α → List α
  | [] => [x]
  | y :: ys => if le x y then x :: y :: ys else y :: sinsert le x ys

/-- Python's stable `sorted`: any stable comparison sort computes the same
function on a total preorder, so stable insertion sort is used. -/
def ssort (le : α → α → Bool) (l : List α) : List α := l.foldr (sinsert le) []

/-- Lexicographic comparison of character lists by code point, modelling
Python's string comparison used by `sorted`. -/
def lexLe : List Char → List Char → Bool
  | [], _ => true
  | _ :: _, [] => false
  | c :: cs, d :: ds =>
      if c.toNat < d.toNat then true
      else if d.toNat < c.toNat then false
      else lexLe cs ds

def strLeB (a b : String) : Bool := lexLe a.data b.data

/-- The scalar-attribute subelements emitted by `_entity2elem`
(src/icat/dumpfile_xml.py lines 30-59): for each attribute name in sorted
order, skipping `id` and unset attributes, a subelement whose text is the
converted value. -/
def attrElemsOf (obj : WObj) : List RElem :=
  (ssort strLeB obj.instAttr).filterMap (fun attr =>
    if attr = "id" then none
    else
      match dlookup obj.attrvals attr with
      | none => none
      | some v => some (RElem.node attr [] (some (attrValStr v)) []))

/-- `_entity2elem` (src/icat/dumpfile_xml.py lines 24-72) with an explicit
recursion-depth fuel (the embedding depth is schema-bounded, spec section
6): scalar attributes in sorted order, then to-one relations in sorted
order as `ref` attributes (the related object's key comes from
`o.getUniqueKey(keyindex=keyindex)`, defined in `icat/entity.py` outside
this repository and modelled per spec section 8 as a pure function `guk`
of the object, the keyindex being only a cache), then, for each to-many
relation attribute in sorted order, the embedded children sorted by
`icat.entity.Entity.__sortkey__` (also outside this repository, modelled
per spec section 4.3 as a canonical key function `sortkey`), each encoded
recursively with the attribute name as tag. -/
def entity2elem (guk : WObj → String) (sortkey : WObj → String) :
    Nat → WObj → Option String → Option RElem
  | 0, _, _ => none
  | fuel + 1, obj, tag =>
      let t := tag.getD obj.instancetype
      let relElems := (ssort strLeB obj.instRel).filterMap (fun attr =>
        match dlookup obj.relvals attr with
        | none => none
        | some o => some (RElem.node attr [("ref", guk o)] none []))
      match (ssort strLeB obj.instMRel).mapM (fun attr =>
          (ssort (fun a b => strLeB (sortkey a) (sortkey b))
              ((dlookup obj.mrelvals attr).getD [])).mapM
            (fun o => entity2elem guk sortkey fuel o (some attr))) with
      | none => none
      | some mlists =>
          some (.node t [] none (attrElemsOf obj ++ relElems ++ mlists.flatten))

theorem ssort_length (le : α → α → Bool) (l : List α) :
    (ssort le l).length = l.length := by
  have hins : ∀ (x : α) (m : List α), (sinsert le x m).length = m.length + 1 := by
    intro x m
    induction m with
    | nil => rfl
    | cons y ys ih =>
        rw [sinsert]
        by_cases hle : le x y
        · simp [hle]
        · simp [hle, ih]
  induction l with
  | nil => rfl
  | cons x xs ih => simp [ssort, List.foldr_cons, hins]; simpa [ssort] using ih

theorem mem_sinsert (le : α → α → Bool) (x a : α) (m : List α) :
    a ∈ sinsert le x m ↔ a = x ∨ a ∈ m := by
  induction m with
  | nil => simp [sinsert]
  | cons y ys ih =>
      rw [sinsert]
      by_cases hle : le x y
      · simp [hle]
      · simp only [hle, Bool.false_eq_true, if_false, List.mem_cons, ih]
        tauto

theorem mem_ssort (le : α → α → Bool) (l : List α) (a : α) :
    a ∈ ssort le l ↔ a ∈ l := by
  induction l with
  | nil => simp [ssort]
  | cons x xs ih =>
      show a ∈ sinsert le x (ssort le xs) ↔ _
      rw [mem_sinsert]
      simp only [List.mem_cons]
      constructor
      · rintro (h | h)
        · exact Or.inl h
        · exact Or.inr (ih.mp h)
      · rintro (h | h)
        · exact Or.inl h
        · exact Or.inr (ih.mpr h)

theorem mapM_some_of_forall {f : α → Option β} {g : α → β} :
    ∀ (l : List α), (∀ x ∈ l, f x = some (g x)) → l.mapM f = some (l.map g) := by
  intro l
  induction l with
  | nil => intro _; rfl
  | cons x xs ih =>
      intro h
      have hx := h x (by simp)
      have hrest := ih (fun y hy => h y (by simp [hy]))
      rw [List.mapM_cons, hx, hrest]
      rfl

theorem entity2elem_leaf (guk sortkey : WObj → String) (fuel : Nat) (c : WObj)
    (a : String) (hrel : c.instRel = []) (hmrel : c.instMRel = []) :
    entity2elem guk sortkey (fuel + 1) c (some a) =
      some (.node a [] none (attrElemsOf c)) := by
  rw [entity2elem]
  simp [hrel, hmrel, ssort]
  show (match (some [] : Option (List (List RElem))) with
    | none => none
    | some mlists => some (RElem.node a [] none (attrElemsOf c ++ mlists.flatten))) =
    some (RElem.node a [] none (attrElemsOf c))
  simp

theorem entity2elem_parent (guk sortkey : WObj → String) (fuel : Nat) (p : WObj)
    (a : String) (cs : List WObj)
    (hattr : p.instAttr = []) (hrel : p.instRel = [])
    (hmrel : p.instMRel = [a]) (hmv : dlookup p.mrelvals a = some cs)
    (hleaf : ∀ c ∈ cs, c.instRel = [] ∧ c.instMRel = []) :
    entity2elem guk sortkey (fuel + 2) p none =
      some (.node p.instancetype [] none
        ((ssort (fun x y => strLeB (sortkey x) (sortkey y)) cs).map
          (fun c => RElem.node a [] none (attrElemsOf c)))) := by
  rw [entity2elem]
  have hchild : ∀ c ∈ ssort (fun x y => strLeB (sortkey x) (sortkey y)) cs,
      entity2elem guk sortkey (fuel + 1) c (some a) =
        some (RElem.node a [] none (attrElemsOf c)) := by
    intro c hc
    have hmm := (mem_ssort _ cs c).mp hc
    exact entity2elem_leaf guk sortkey fuel c a (hleaf c hmm).1 (hleaf c hmm).2
  have hmapM := mapM_some_of_forall
    (ssort (fun x y => strLeB (sortkey x) (sortkey y)) cs) hchild
  have hsingle : (ssort strLeB p.instMRel).mapM (fun attr =>
      (ssort (fun x y => strLeB (sortkey x) (sortkey y))
          ((dlookup p.mrelvals attr).getD [])).mapM
        (fun o => entity2elem guk sortkey (fuel + 1) o (some attr))) =
      some [((ssort (fun x y => strLeB (sortkey x) (sortkey y)) cs).map
        (fun c => RElem.node a [] none (attrElemsOf c)))] := by
    rw [hmrel]
    show List.mapM _ [a] = _
    rw [List.mapM_cons, hmv]
    simp only [Option.getD_some]
    rw [hmapM]
    rfl
  simp only [hsingle]
  have hae : attrElemsOf p = [] := by
    simp [attrElemsOf, hattr, ssort]
  simp [hae, hrel, ssort]

/-- The effect on a reconstructed object of processing a run of scalar
attribute subelements. -/
def applyAttrElems (obj : IObj) (elems : List RElem) : IObj :=
  elems.foldl (fun o e => o.setAttr e.tag e.text) obj

theorem elem2entityFold_attrs (env : ReadEnv) (sch : EntitySchema) (etag : String) :
    ∀ (elems : List RElem) (obj : IObj) (oi : ObjIndex),
      (∀ e ∈ elems, dlookup sch.attrAlias e.tag = none ∧ e.tag ∈ sch.instAttr) →
      elem2entityFold env sch etag obj elems oi = .ok (applyAttrElems obj elems) := by
  intro elems
  induction elems with
  | nil => intro obj oi h; rfl
  | cons e rest ih =>
      intro obj oi h
      obtain ⟨halias, hmem⟩ := h e (by simp)
      rw [elem2entityFold]
      simp only [halias, Option.getD_none]
      rw [if_pos hmem]
      exact ih _ oi (fun x hx => h x (by simp [hx]))

theorem attrElemsOf_spec (c : WObj) : ∀ e ∈ attrElemsOf c,
    ∃ attr v, e = RElem.node attr [] (some (attrValStr v)) [] ∧
      attr ∈ c.instAttr ∧ attr ≠ "id" := by
  intro e he
  simp only [attrElemsOf, List.mem_filterMap] at he
  obtain ⟨attr, hmem, hf⟩ := he
  by_cases hid : attr = "id"
  · simp [hid] at hf
  · rw [if_neg hid] at hf
    cases hv : dlookup c.attrvals attr with
    | none => simp only [hv] at hf; simp at hf
    | some v =>
        simp only [hv, Option.some.injEq] at hf
        exact ⟨attr, v, hf.symm, (mem_ssort _ _ _).mp hmem, hid⟩

theorem addMRel_mrels (obj : IObj) (a : String) (x : IObj) :
    (obj.addMRel a x).mrels = obj.mrels ++ [(a, x)] := by
  cases obj; rfl

theorem foldl_addMRel_mrels (a : String) (conv : WObj → IObj) :
    ∀ (ws : List WObj) (obj : IObj),
      (ws.foldl (fun o c => o.addMRel a (conv c)) obj).mrels =
        obj.mrels ++ ws.map (fun c => (a, conv c)) := by
  intro ws
  induction ws with
  | nil => intro obj; simp
  | cons c rest ih =>
      intro obj
      simp only [List.foldl_cons, List.map_cons]
      rw [ih, addMRel_mrels]
      simp

theorem filter_map_pair (a : String) (conv : WObj → IObj) :
    ∀ (ws : List WObj),
      (((ws.map (fun c => (a, conv c))).filter (fun p => p.1 = a)).map Prod.snd) =
        ws.map conv := by
  intro ws
  induction ws with
  | nil => rfl
  | cons c rest ih => simp [ih]

theorem elem2entityFold_mrelChildren (env : ReadEnv) (psch : EntitySchema)
    (ptag a childBean ctag : String) (csch : EntitySchema)
    (halias : dlookup psch.attrAlias a = none)
    (hnattr : a ∉ psch.instAttr)
    (hnrel : dlookup psch.instRel a = none)
    (hmrel : dlookup psch.instMRel a = some childBean)
    (hct : dlookup (insttypemapOf env.typemap) childBean = some ctag)
    (hcsch : dlookup env.typemap ctag = some csch)
    (hcalias : csch.attrAlias = []) :
    ∀ (ws : List WObj) (obj : IObj) (oi : ObjIndex),
      (∀ c ∈ ws, ∀ attr ∈ c.instAttr, attr ∈ csch.instAttr) →
      elem2entityFold env psch ptag obj
          (ws.map (fun c => RElem.node a [] none (attrElemsOf c))) oi =
        .ok (ws.foldl (fun o c =>
          o.addMRel a (applyAttrElems (IObj.mk csch.beanName [] [] [])
            (attrElemsOf c))) obj) := by
  intro ws
  induction ws with
  | nil => intro obj oi _; rfl
  | cons c rest ih =>
      intro obj oi h
      rw [List.map_cons, elem2entityFold]
      simp only [RElem.tag, halias, Option.getD_none]
      rw [if_neg hnattr]
      simp only [hnrel, hmrel]
      have hrec : elem2entity env (RElem.node a [] none (attrElemsOf c))
          childBean oi =
          .ok (applyAttrElems (IObj.mk csch.beanName [] [] []) (attrElemsOf c)) := by
        rw [elem2entity]
        simp only [hct, hcsch]
        apply elem2entityFold_attrs
        intro e he
        obtain ⟨attr, v, hee, hmem, _⟩ := attrElemsOf_spec c e he
        subst hee
        refine ⟨by simp [hcalias, dlookup, RElem.tag], ?_⟩
        simp only [RElem.tag]
        exact h c (by simp) attr hmem
      simp only [hrec]
      exact ih _ oi (fun x hx => h x (by simp [hx]))

/-- C6, amended: writing an entity that embeds `n` child entities in a
one-to-many relation and reading the record back yields one entity with
exactly `n` embedded children, in the canonical sorted order the encoder
imposes via the entity sort key (children are emitted sorted by
`Entity.__sortkey__`, src/icat/dumpfile_xml.py line 68); the original
order of the input collection is preserved exactly when that collection is
already sorted by the key. -/
theorem embedded_children_roundtrip
    (env : ReadEnv) (guk sortkey : WObj → String) (fuel : Nat)
    (p : WObj) (a parentBean childBean ptag ctag : String)
    (psch csch : EntitySchema) (cs : List WObj) (oi : ObjIndex)
    (hpt : dlookup (insttypemapOf env.typemap) parentBean = some ptag)
    (hps : dlookup env.typemap ptag = some psch)
    (hpalias : psch.attrAlias = [])
    (hpnattr : a ∉ psch.instAttr)
    (hpnrel : dlookup psch.instRel a = none)
    (hpmrel : dlookup psch.instMRel a = some childBean)
    (hct : dlookup (insttypemapOf env.typemap) childBean = some ctag)
    (hcsch : dlookup env.typemap ctag = some csch)
    (hcalias : csch.attrAlias = [])
    (hattr : p.instAttr = []) (hrel : p.instRel = [])
    (hmrel : p.instMRel = [a]) (hmv : dlookup p.mrelvals a = some cs)
    (hleaf : ∀ c ∈ cs, c.instRel = [] ∧ c.instMRel = [])
    (hcattr : ∀ c ∈ cs, ∀ attr ∈ c.instAttr, attr ∈ csch.instAttr) :
    ∃ pelem robj,
      entity2elem guk sortkey (fuel + 2) p none = some pelem ∧
      elem2entity env pelem parentBean oi = .ok robj ∧
      robj.mrelOf a =
        (ssort (fun x y => strLeB (sortkey x) (sortkey y)) cs).map
          (fun c => applyAttrElems (IObj.mk csch.beanName [] [] [])
            (attrElemsOf c)) ∧
      (robj.mrelOf a).length = cs.length := by
  have hpe := entity2elem_parent guk sortkey fuel p a cs hattr hrel hmrel hmv hleaf
  set sorted := ssort (fun x y => strLeB (sortkey x) (sortkey y)) cs with hsorted
  have hre : elem2entity env
      (.node p.instancetype [] none
        (sorted.map (fun c => RElem.node a [] none (attrElemsOf c))))
      parentBean oi =
      .ok (sorted.foldl (fun o c =>
        o.addMRel a (applyAttrElems (IObj.mk csch.beanName [] [] [])
          (attrElemsOf c))) (IObj.mk psch.beanName [] [] [])) := by
    rw [elem2entity]
    simp only [hpt, hps]
    apply elem2entityFold_mrelChildren env psch p.instancetype a childBean ctag csch
      (by simp [hpalias, dlookup]) hpnattr hpnrel hpmrel hct hcsch hcalias
    intro c hc
    exact hcattr c ((mem_ssort _ _ _).mp hc)
  refine ⟨_, _, hpe, hre, ?_, ?_⟩
  · show (IObj.mrelOf _ a) = _
    rw [IObj.mrelOf]
    rw [foldl_addMRel_mrels]
    show ((([] ++ sorted.map _).filter _).map _) = _
    rw [List.nil_append]
    exact filter_map_pair a _ sorted
  · rw [IObj.mrelOf, foldl_addMRel_mrels]
    show ((([] ++ sorted.map _).filter _).map _).length = _
    rw [List.nil_append, filter_map_pair a _ sorted]
    rw [List.length_map, hsorted, ssort_length]

/-- Modelled from the spec: `icat.entity.Entity.__sortkey__` is defined in
`icat/entity.py`, which is not part of this repository.  Spec section 4.3:
entity lists are sorted "by a canonical order (type-specific, e.g. by
natural key components)"; for the `Keyword` entity type the natural key
components include its `name`, so the sort key of a keyword is modelled as
its name attribute value. -/
def kwSortkey : WObj → String := fun o =>
  match dlookup o.attrvals "name" with
  | some (.vstr s) => s
  | _ => ""

/-- A `Keyword` child with the given name. -/
def kwObj (s : String) : WObj :=
  .mk "keyword" ["name"] [] [] [("name", .vstr s)] [] []

/-- An `Investigation` embedding the keywords `zeta` then `alpha`, in that
(non-canonical) original order. -/
def invParent : WObj :=
  .mk "investigation" [] [] ["keywords"] [] []
    [("keywords", [kwObj "zeta", kwObj "alpha"])]

def invSchema : EntitySchema :=
  ⟨"Investigation", [], [], [], [("keywords", "Keyword")]⟩

def kwSchema : EntitySchema := ⟨"Keyword", [], ["name"], [], []⟩

def kwEnv : ReadEnv :=
  ⟨[("investigation", invSchema), ("keyword", kwSchema)],
    fun _ => none, fun _ _ => []⟩

/-- The encoded record of `invParent`: the children appear sorted by name,
not in original order. -/
def invElem : RElem :=
  .node "investigation" [] none
    [.node "keywords" [] none [.node "name" [] (some "alpha") []],
     .node "keywords" [] none [.node "name" [] (some "zeta") []]]

/-- The read-back object of `invElem`. -/
def invRead : IObj :=
  .mk "Investigation" [] []
    [("keywords", .mk "Keyword" [("name", some "alpha")] [] []),
     ("keywords", .mk "Keyword" [("name", some "zeta")] [] [])]

/-- C6, counterexample: round-tripping an `Investigation` that embeds the
keywords `zeta` then `alpha` yields the two children in sorted order
`alpha`, `zeta` — not in the original order of the input collection, which
the claim asserts. -/
theorem embedded_children_order_counterexample :
    entity2elem (fun _ => "k") kwSortkey 2 invParent none = some invElem ∧
    elem2entity kwEnv invElem "Investigation" [] = .ok invRead ∧
    invRead.mrelOf "keywords" =
      [.mk "Keyword" [("name", some "alpha")] [] [],
       .mk "Keyword" [("name", some "zeta")] [] []] ∧
    invRead.mrelOf "keywords" ≠
      [.mk "Keyword" [("name", some "zeta")] [] [],
       .mk "Keyword" [("name", some "alpha")] [] []] := by
  refine ⟨rfl, rfl, rfl, ?_⟩
  intro h
  rw [show invRead.mrelOf "keywords" =
      [IObj.mk "Keyword" [("name", some "alpha")] [] [],
       IObj.mk "Keyword" [("name", some "zeta")] [] []] from rfl] at h
  simp at h

/-- Witness for the amended C6 theorem at the same concrete input: the
round trip yields exactly 2 children, in the canonical keyword order. -/
theorem embedded_children_roundtrip_witness :
    ∃ pelem robj,
      entity2elem (fun _ => "k") kwSortkey 2 invParent none = some pelem ∧
      elem2entity kwEnv pelem "Investigation" [] = .ok robj ∧
      robj.mrelOf "keywords" =
        (ssort (fun x y => strLeB (kwSortkey x) (kwSortkey y))
            [kwObj "zeta", kwObj "alpha"]).map
          (fun c => applyAttrElems (IObj.mk kwSchema.beanName [] [] [])
            (attrElemsOf c)) ∧
      (robj.mrelOf "keywords").length = ([kwObj "zeta", kwObj "alpha"] : List WObj).length :=
  embedded_children_roundtrip kwEnv (fun _ => "k") kwSortkey 0 invParent
    "keywords" "Investigation" "Keyword" "investigation" "keyword"
    invSchema kwSchema [kwObj "zeta", kwObj "alpha"] []
    (by rfl) (by rfl) (by rfl) (by simp [invSchema]) (by rfl) (by rfl)
    (by rfl) (by rfl) (by rfl) (by rfl) (by rfl) (by rfl) (by rfl)
    (by
      intro c hc
      simp only [List.mem_cons, List.mem_singleton] at hc
      rcases hc with h | h | h
      · subst h; exact ⟨rfl, rfl⟩
      · subst h; exact ⟨rfl, rfl⟩
      · simp at h)
    (by
      intro c hc
      simp only [List.mem_cons, List.mem_singleton] at hc
      rcases hc with h | h | h
      · subst h
        intro attr ha
        simp only [kwObj, WObj.instAttr] at ha
        simpa [kwSchema] using ha
      · subst h
        intro attr ha
        simp only [kwObj, WObj.instAttr] at ha
        simpa [kwSchema] using ha
      · simp at h)
